import Mathlib

/-!
Verification of the Inspectra vehicle-inspection chatbot against its
natural-language specification.

The Python sources (`app/chatbot.py`, `app/llm_interface.py`,
`app/database.py`, `app/memory.py`) are shallowly embedded below.  External
oracles (the Ollama LLM endpoint, the PostgreSQL cursor, `json.loads`) are
modelled as explicit function parameters, exactly at the call boundaries the
Python code uses.  All deterministic repository logic (cache lookup, the
destructive-keyword guard, `_clean_sql` post-processing, enrichment,
conversation memory, error translation, call sequencing) is translated
faithfully, string operation by string operation, on `List Char`.
-/

namespace Inspectra

/-! ## Basic Python string operations (`str.lower`, `str.strip`, `in`, slices) -/

/-- Python `str.lower()` (per-character, sufficient for the ASCII data used). -/
def pyLower (s : String) : String := ⟨s.data.map Char.toLower⟩

/-- Python `str.upper()` on a character list. -/
def upperL (l : List Char) : List Char := l.map Char.toUpper

/-- Python `str.strip()` on a character list: drop whitespace from both ends. -/
def stripL (l : List Char) : List Char :=
  ((l.dropWhile Char.isWhitespace).reverse.dropWhile Char.isWhitespace).reverse

/-- Python `str.strip()` on strings. -/
def pyStrip (s : String) : String := ⟨stripL s.data⟩

/-- `query.lower().strip()`, the normal form used by the chatbot cache. -/
def pyNormalize (s : String) : String := pyStrip (pyLower s)

/-- Python slice `s[:100]`. -/
def take100 (s : String) : String := ⟨s.data.take 100⟩

/-- `sub` occurs at the front of `l`. -/
def isPrefixL : List Char → List Char → Bool
  | [], _ => true
  | _ :: _, [] => false
  | a :: as, b :: bs => a == b && isPrefixL as bs

/-- Python `sub in s` on character lists. -/
def isInfixL (sub : List Char) : List Char → Bool
  | [] => isPrefixL sub []
  | b :: bs => isPrefixL sub (b :: bs) || isInfixL sub bs

/-- Python `sub in s` on strings. -/
def containsStr (s sub : String) : Bool := isInfixL sub.data s.data

/-- The single-quote character `'`, written by code point to keep the
    embedding readable next to the regex patterns it implements. -/
def quoteC : Char := Char.ofNat 39

/-- The backquote character used by Markdown code fences. -/
def backqC : Char := Char.ofNat 96

/-! ## `LLMInterface._clean_sql`  (src/app/llm_interface.py, lines 135-154)

`re.sub(rf"{col}\s*=\s*'([^']+)'", f"{col} ILIKE '%\1%'", sql, IGNORECASE)`
is a left-to-right scan: at each position the regex engine tries to match
the pattern, replaces on success and resumes after the match, otherwise
advances one character.  `matchExact` is that single-position match;
`ilikeSub` is the scan. -/

/-- Case-insensitive pattern prefix match: strips `pat` (compared through
    `Char.toLower`, the semantics of `re.IGNORECASE` on this alphabet) off
    the front of `l`. -/
def stripPrefixCI : List Char → List Char → Option (List Char)
  | [], l => some l
  | _ :: _, [] => none
  | a :: as, b :: bs => if a.toLower == b.toLower then stripPrefixCI as bs else none

/-- Match `col \s* = \s* ' [^']+ '` at the front of `l`; on success return
    the captured value (the `[^']+` group) and the rest of the input after
    the closing quote. -/
def matchExact (col : List Char) (l : List Char) : Option (List Char × List Char) :=
  match stripPrefixCI col l with
  | none => none
  | some l1 =>
    match l1.dropWhile Char.isWhitespace with
    | [] => none
    | c :: l3 =>
      if c == '=' then
        match l3.dropWhile Char.isWhitespace with
        | [] => none
        | d :: l5 =>
          if d == quoteC then
            let v := l5.takeWhile (fun x => x != quoteC)
            if v.isEmpty then none
            else
              match l5.drop v.length with
              | e :: rest => if e == quoteC then some (v, rest) else none
              | [] => none
          else none
      else none

theorem stripPrefixCI_decomp {pat l r : List Char} (h : stripPrefixCI pat l = some r) :
    ∃ pre, l = pre ++ r := by
  induction pat generalizing l with
  | nil =>
    simp only [stripPrefixCI, Option.some.injEq] at h
    exact ⟨[], by simp [h]⟩
  | cons a as ih =>
    cases l with
    | nil => exact absurd h (by simp [stripPrefixCI])
    | cons b bs =>
      simp only [stripPrefixCI] at h
      split at h
      · obtain ⟨pre, hpre⟩ := ih h
        exact ⟨b :: pre, by simp [hpre]⟩
      · exact absurd h (by simp)

/-- A list is its `takeWhile` prefix followed by the matching `drop`. -/
theorem takeWhile_append_drop_self (p : Char → Bool) (l : List Char) :
    l.takeWhile p ++ l.drop (l.takeWhile p).length = l := by
  induction l with
  | nil => rfl
  | cons a l ih =>
    by_cases h : p a
    · simp only [List.takeWhile_cons_of_pos h, List.length_cons, List.drop_succ_cons,
        List.cons_append, List.cons.injEq, true_and]
      exact ih
    · simp [List.takeWhile_cons_of_neg h]

/-- The structural content of a successful `matchExact`: the input splits as
    `pre ++ v ++ quote :: rest` with `v` non-empty and quote-free. -/
theorem matchExact_decomp {col l v rest : List Char}
    (h : matchExact col l = some (v, rest)) :
    (∃ pre, l = pre ++ v ++ quoteC :: rest) ∧ v ≠ [] ∧ ∀ c ∈ v, c ≠ quoteC := by
  simp only [matchExact] at h
  split at h
  · simp at h
  next l1 h1 =>
    obtain ⟨p0, hp0⟩ := stripPrefixCI_decomp h1
    split at h
    · simp at h
    next c l3 h2 =>
      have hl1 : l1 = l1.takeWhile Char.isWhitespace ++ c :: l3 := by
        conv_lhs => rw [← List.takeWhile_append_dropWhile (p := Char.isWhitespace) (l := l1)]
        rw [h2]
      split at h
      case isFalse => simp at h
      case isTrue hc =>
        split at h
        · simp at h
        next d l5 h3 =>
          have hl3 : l3 = l3.takeWhile Char.isWhitespace ++ d :: l5 := by
            conv_lhs => rw [← List.takeWhile_append_dropWhile (p := Char.isWhitespace) (l := l3)]
            rw [h3]
          split at h
          case isFalse => simp at h
          case isTrue hd =>
            split at h
            case isTrue hv => simp at h
            case isFalse hv =>
              split at h
              case h_2 h5 => simp at h
              case h_1 e rest' h5 =>
                split at h
                case isFalse => simp at h
                case isTrue he =>
                  simp only [Option.some.injEq, Prod.mk.injEq] at h
                  obtain ⟨hveq, hrest⟩ := h
                  have hl5 : l5 = l5.takeWhile (fun x => x != quoteC) ++ e :: rest' := by
                    conv_lhs => rw [← takeWhile_append_drop_self (fun x => x != quoteC) l5]
                    rw [h5]
                  have hcEq : c = '=' := by simpa using hc
                  have hdEq : d = quoteC := by simpa using hd
                  have heEq : e = quoteC := by simpa using he
                  refine ⟨⟨p0 ++ l1.takeWhile Char.isWhitespace ++ c ::
                      (l3.takeWhile Char.isWhitespace ++ [d]), ?_⟩, ?_, ?_⟩
                  · calc l = p0 ++ l1 := hp0
                      _ = p0 ++ (List.takeWhile Char.isWhitespace l1 ++ c :: l3) := by
                          rw [← hl1]
                      _ = p0 ++ (List.takeWhile Char.isWhitespace l1 ++ c ::
                            (List.takeWhile Char.isWhitespace l3 ++ d :: l5)) := by
                          rw [← hl3]
                      _ = p0 ++ (List.takeWhile Char.isWhitespace l1 ++ c ::
                            (List.takeWhile Char.isWhitespace l3 ++ d ::
                              (List.takeWhile (fun x => x != quoteC) l5 ++ e :: rest'))) := by
                          rw [← hl5]
                      _ = (p0 ++ List.takeWhile Char.isWhitespace l1 ++ c ::
                            (List.takeWhile Char.isWhitespace l3 ++ [d])) ++
                              v ++ quoteC :: rest := by
                          rw [hveq, hrest, heEq]; simp
                  · intro hnil
                    rw [← hveq] at hnil
                    rw [List.isEmpty_iff] at hv
                    exact hv hnil
                  · intro x hx
                    rw [← hveq] at hx
                    have := List.mem_takeWhile_imp hx
                    simpa using this

theorem matchExact_length {col l v rest : List Char}
    (h : matchExact col l = some (v, rest)) : rest.length < l.length := by
  obtain ⟨⟨pre, hpre⟩, hv, -⟩ := matchExact_decomp h
  subst hpre
  simp only [List.length_append, List.length_cons]
  cases v with
  | nil => exact absurd rfl hv
  | cons a as => simp; omega

/-- `" ILIKE '%"`, the text inserted before the captured value. -/
def ilikeMid : List Char := " ILIKE ".data ++ [quoteC, '%']

/-- `"%'"`, the text inserted after the captured value. -/
def ilikeEnd : List Char := ['%', quoteC]

/-- One `re.sub` pass for one text column: a left-to-right scan with
    non-overlapping replacement.  `fuel` only bounds the recursion; every
    use supplies `fuel ≥ length`, under which the result is fuel-independent
    (`ilikeSubAux_fuel`). -/
def ilikeSubAux (col : List Char) : Nat → List Char → List Char
  | 0, l => l
  | _ + 1, [] => []
  | fuel + 1, c :: rest =>
    match matchExact col (c :: rest) with
    | some (v, after) => col ++ ilikeMid ++ v ++ ilikeEnd ++ ilikeSubAux col fuel after
    | none => c :: ilikeSubAux col fuel rest

theorem ilikeSubAux_fuel {col : List Char} :
    ∀ {f1 f2 : Nat} {l : List Char}, l.length ≤ f1 → l.length ≤ f2 →
      ilikeSubAux col f1 l = ilikeSubAux col f2 l := by
  intro f1
  induction f1 with
  | zero =>
    intro f2 l h1 h2
    have : l = [] := List.length_eq_zero.mp (Nat.le_zero.mp h1)
    subst this
    cases f2 <;> rfl
  | succ f ih =>
    intro f2 l h1 h2
    cases l with
    | nil => cases f2 <;> rfl
    | cons c rest =>
      cases f2 with
      | zero => simp at h2
      | succ g =>
        simp only [ilikeSubAux]
        cases hm : matchExact col (c :: rest) with
        | some p =>
          obtain ⟨v, after⟩ := p
          have hlen := matchExact_length hm
          simp only [List.length_cons] at hlen h1 h2
          have e1 : after.length ≤ f := by omega
          have e2 : after.length ≤ g := by omega
          dsimp only
          rw [@ih g after e1 e2]
        | none =>
          simp only [List.length_cons] at h1 h2
          dsimp only
          rw [@ih g rest (by omega) (by omega)]

/-- The `re.sub` pass at its canonical fuel. -/
def ilikeSub (col : List Char) (l : List Char) : List Char :=
  ilikeSubAux col l.length l

theorem ilikeSub_nil (col : List Char) : ilikeSub col [] = [] := rfl

theorem ilikeSub_cons_none {col : List Char} {c : Char} {rest : List Char}
    (h : matchExact col (c :: rest) = none) :
    ilikeSub col (c :: rest) = c :: ilikeSub col rest := by
  unfold ilikeSub
  simp only [List.length_cons, ilikeSubAux, h]

theorem ilikeSub_cons_some {col : List Char} {c : Char} {rest v after : List Char}
    (h : matchExact col (c :: rest) = some (v, after)) :
    ilikeSub col (c :: rest) = col ++ ilikeMid ++ v ++ ilikeEnd ++ ilikeSub col after := by
  unfold ilikeSub
  simp only [List.length_cons, ilikeSubAux, h]
  have hlen := matchExact_length h
  simp only [List.length_cons] at hlen
  rw [ilikeSubAux_fuel (by omega) (le_refl after.length)]

/-- `LLMInterface.TEXT_COLUMNS` (src/app/llm_interface.py, lines 11-18), in
    dict insertion order, i.e. the order the `re.sub` passes run in. -/
def TEXT_COLUMNS : List String :=
  ["inspector_name", "ramp", "mfg_model", "damage_comments",
   "vehicle_comments", "damage_descriptions"]

/-- The `for col in self.TEXT_COLUMNS` substitution loop. -/
def ilikeSubAll (l : List Char) : List Char :=
  TEXT_COLUMNS.foldl (fun s col => ilikeSub col.data s) l

/-- The token `"` ``` `sql"` of the fence-stripping regex. -/
def fenceSql : List Char := [backqC, backqC, backqC, 's', 'q', 'l']

/-- The bare fence token. -/
def fencePlain : List Char := [backqC, backqC, backqC]

/-- `re.sub(r"` ``` `(sql)?|` ``` `", "", raw_sql)`: remove every Markdown
    code fence, a fence followed by `sql` counting as one token (fuelled
    scan; callers pass `fuel = length`, which always suffices). -/
def stripFencesAux : Nat → List Char → List Char
  | 0, l => l
  | _ + 1, [] => []
  | fuel + 1, c :: rest =>
    if isPrefixL fenceSql (c :: rest) then stripFencesAux fuel ((c :: rest).drop 6)
    else if isPrefixL fencePlain (c :: rest) then stripFencesAux fuel ((c :: rest).drop 3)
    else c :: stripFencesAux fuel rest

/-- The fence-stripping pass at canonical fuel. -/
def stripFences (l : List Char) : List Char := stripFencesAux l.length l

/-- The text of `_clean_sql` just before `split(';')[0] + ';'`: strip fences
    and whitespace, force `ILIKE` on the known free-text columns, prepend
    `SELECT * ` when no `SELECT` is present, append ` LIMIT 1000` when no
    `LIMIT` is present. -/
def preSplit (raw : List Char) : List Char :=
  let sql0 := stripL (stripFences raw)
  let sql1 := ilikeSubAll sql0
  let sql2 := if isInfixL "SELECT".data (upperL sql1) then sql1
              else "SELECT * ".data ++ sql1
  if isInfixL "LIMIT".data (upperL sql2) then sql2
  else sql2 ++ " LIMIT 1000".data

/-- `LLMInterface._clean_sql` (src/app/llm_interface.py, lines 135-154) on
    character lists: the cleanup passes of `preSplit` followed by
    `split(';')[0] + ';'` (keep only the text before the first `;` and
    terminate it with `;`). -/
def cleanSqlL (raw : List Char) : List Char :=
  (preSplit raw).takeWhile (fun c => c != ';') ++ [';']

/-- `LLMInterface._clean_sql` on strings. -/
def clean_sql (raw : String) : String := ⟨cleanSqlL raw.data⟩

example : clean_sql "SELECT x FROM t WHERE ramp = 'abc'" =
    "SELECT x FROM t WHERE ramp ILIKE '%abc%' LIMIT 1000;" := by rfl

example : clean_sql "SELECT a FROM t; SELECT b FROM t" = "SELECT a FROM t;" := by rfl

/-! ## `LLMInterface._polish_response` and `format_response`
    (src/app/llm_interface.py, lines 172-208) -/

/-- Front match of the first alternative `\[\d+\srecords?\]` of the polishing
    regex; returns the rest of the input after the match. -/
def matchNumRecords : List Char → Option (List Char)
  | '[' :: rest =>
    let ds := rest.takeWhile Char.isDigit
    if ds.isEmpty then none
    else
      match rest.drop ds.length with
      | w :: r2 =>
        if w.isWhitespace then
          match r2 with
          | 'r' :: 'e' :: 'c' :: 'o' :: 'r' :: 'd' :: 's' :: ']' :: r4 => some r4
          | 'r' :: 'e' :: 'c' :: 'o' :: 'r' :: 'd' :: ']' :: r4 => some r4
          | _ => none
        else none
      | [] => none
  | _ => none

/-- Front match of `\[\d+\srecords?\]|\[\]|` fence, the full alternation of
    `re.sub` in `_polish_response`, in the regex's alternative order. -/
def matchPolishPat (l : List Char) : Option (List Char) :=
  match matchNumRecords l with
  | some r => some r
  | none =>
    match l with
    | '[' :: ']' :: r => some r
    | a :: b :: c :: r => if a == backqC && b == backqC && c == backqC then some r else none
    | _ => none

/-- The deleting `re.sub` scan of `_polish_response` (fuelled; callers pass
    `fuel = length`, which always suffices since a match consumes input). -/
def polishScanAux : Nat → List Char → List Char
  | 0, l => l
  | _ + 1, [] => []
  | fuel + 1, c :: rest =>
    match matchPolishPat (c :: rest) with
    | some after => polishScanAux fuel after
    | none => c :: polishScanAux fuel rest

/-- Python `str.replace(pat, rep)`: left-to-right non-overlapping replacement
    (fuelled like the scans above; `pat` is non-empty at every use site). -/
def replaceAllAux (pat rep : List Char) : Nat → List Char → List Char
  | 0, l => l
  | _ + 1, [] => []
  | fuel + 1, c :: rest =>
    if isPrefixL pat (c :: rest) then
      rep ++ replaceAllAux pat rep fuel ((c :: rest).drop pat.length)
    else c :: replaceAllAux pat rep fuel rest

/-- Python `l.replace(pat, rep)` at canonical fuel. -/
def replaceAllL (l pat rep : List Char) : List Char := replaceAllAux pat rep l.length l

/-- `LLMInterface._polish_response` on character lists: strip `[N records]`,
    `[]` and fences, run the two literal replacements, then capitalize the
    first letter, with `"No results found"` for an empty remainder. -/
def polishL (resp : List Char) : List Char :=
  let r1 := polishScanAux resp.length resp
  let r2 := replaceAllL r1 "From []".data []
  let r3 := replaceAllL r2 "Found 1 record".data "Found 1 inspection record".data
  match r3 with
  | [] => "No results found".data
  | c :: rest => c.toUpper :: rest

/-- `LLMInterface._polish_response` on strings. -/
def polish_response (resp : String) : String := ⟨polishL resp.data⟩

/-- The fallback text used when the formatting LLM call returned nothing. -/
def defaultFormatMsg : String := "I couldn't find that information. Please try rephrasing."

/-- `LLMInterface.format_response`, as a function of the raw LLM generation
    (`None`/empty are Python-falsy and replaced by the fallback before
    polishing); the prompt construction itself carries no program logic. -/
def format_response (raw : Option String) : String :=
  polish_response (match raw with
    | none => defaultFormatMsg
    | some s => if s = "" then defaultFormatMsg else s)

/-- `_polish_response` never returns the empty string: its last line either
    capitalizes a non-empty string or substitutes a fixed message. -/
theorem polish_response_ne_empty (s : String) : polish_response s ≠ "" := by
  unfold polish_response polishL
  intro h
  have hd : polishL s.data = ([] : List Char) := by
    have := congrArg String.data h
    simpa [polish_response] using this
  unfold polishL at hd
  dsimp only at hd
  split at hd
  · simp at hd
  · simp at hd

theorem format_response_ne_empty (raw : Option String) : format_response raw ≠ "" :=
  polish_response_ne_empty _

/-! ## `LLMInterface.route_query` (src/app/llm_interface.py, lines 80-99)

The LLM generation and `json.loads` are external oracles; the repository
logic is the fallback structure around them: a falsy response selects the
`"Fallback"` default, an unparseable one the `"Invalid response"` default,
and a parsed JSON value is returned as-is. -/

/-- Minimal JSON values, the codomain of the `json.loads` oracle. -/
inductive Json where
  | null : Json
  | bool (b : Bool) : Json
  | num (n : Int) : Json
  | str (s : String) : Json
  | arr (items : List Json) : Json
  | obj (fields : List (String × Json)) : Json

/-- The routing default object `{"use_semantic": False, "reason": reason}`. -/
def fallbackRouting (reason : String) : Json :=
  Json.obj [("use_semantic", Json.bool false), ("reason", Json.str reason)]

/-- `LLMInterface.route_query`, as a function of the raw LLM response
    (`self.generate(...)`, an `Option String`) and the `json.loads` oracle
    (`.error` is a `JSONDecodeError`). -/
def route_query (resp : Option String) (loads : String → Except Unit Json) : Json :=
  match resp with
  | none => fallbackRouting "Fallback"
  | some s =>
    if s = "" then fallbackRouting "Fallback"
    else
      match loads s with
      | .error _ => fallbackRouting "Invalid response"
      | .ok v => v

/-! ## `DatabaseManager.execute_query` (src/app/database.py, lines 44-69)

The cursor is an oracle: acquiring it can raise (outside the `try`, so the
exception propagates), and executing the SQL inside the `try` either raises
(caught: the sentinel `None` is returned), yields no description (DDL-like:
`[]` is returned), or yields column names and fetched tuples (converted to
one mapping per row).  The returned value distinguishes `None` (execution
error) from `some []` (zero rows). -/

/-- A database row as the Python dict built from a cursor tuple. -/
abbrev Row := List (String × String)

/-- Python `rec.get(k)`. -/
def rowGet (r : Row) (k : String) : Option String :=
  (r.find? (fun kv => kv.1 == k)).map (·.2)

/-- Outcome of `cur.execute(sql)` + `cur.fetchall()` inside the `try`. -/
inductive CursorOutcome where
  | raises (msg : String)
  | ok (descr : Option (List String)) (fetched : List (List String))
deriving DecidableEq

/-- `DatabaseManager.execute_query`: the outer `Except` is an uncaught
    exception from cursor acquisition; `Option` is the `None`-vs-rows
    distinction documented in the source
    (`# Differentiate between empty results and errors`). -/
def execute_query (acquired : Except String CursorOutcome) :
    Except String (Option (List Row)) :=
  match acquired with
  | .error m => .error m
  | .ok (.raises _) => .ok none
  | .ok (.ok none _) => .ok (some [])
  | .ok (.ok (some cols) fetched) =>
      .ok (some (fetched.map (fun row => cols.zip row)))

/-! ## `ConversationMemory` (src/app/memory.py)

Timestamps are integers in minutes (`ttl_minutes=60` becomes `ttl = 60`);
each Python `datetime.now()` inside one call is the single `now` argument. -/

/-- One stored message (`role`, `content`, `timestamp`). -/
structure Msg where
  role : String
  content : String
  timestamp : Int
deriving DecidableEq

/-- One session record (`history`, `created`, `last_accessed`). -/
structure SessionData where
  history : List Msg
  created : Int
  last_accessed : Int
deriving DecidableEq

/-- `ConversationMemory`: insertion-ordered session dict plus the TTL. -/
structure MemoryState where
  sessions : List (String × SessionData)
  ttl : Int
deriving DecidableEq

/-- The memory of a fresh `ConversationMemory()` (default `ttl_minutes=60`). -/
def emptyMemory : MemoryState := ⟨[], 60⟩

/-- Dict lookup on the session store. -/
def findSession (sessions : List (String × SessionData)) (sid : String) :
    Option SessionData :=
  (sessions.find? (fun kv => kv.1 == sid)).map (·.2)

/-- `ConversationMemory._clean_expired`: delete every session whose idle time
    strictly exceeds the TTL. -/
def clean_expired (m : MemoryState) (now : Int) : MemoryState :=
  { m with sessions := m.sessions.filter (fun kv => !(now - kv.2.last_accessed > m.ttl)) }

/-- `ConversationMemory.add_message`: sweep, create the session on first use,
    append the message, refresh `last_accessed`. -/
def add_message (m : MemoryState) (sid role content : String) (now : Int) : MemoryState :=
  let m1 := clean_expired m now
  let sessions :=
    if (findSession m1.sessions sid).isSome then m1.sessions
    else m1.sessions ++ [(sid, ⟨[], now, now⟩)]
  { m1 with sessions := sessions.map (fun kv =>
      if kv.1 == sid then
        (kv.1, { kv.2 with
                  history := kv.2.history ++ [⟨role, content, now⟩]
                  last_accessed := now })
      else kv) }

/-- `ConversationMemory.get_history`: sweep, then return the last
    `max_messages` messages (Python `history[-max_messages:]`), together with
    the swept store (the sweep is a side effect of the call). -/
def get_history (m : MemoryState) (sid : String) (maxMessages : Nat) (now : Int) :
    List Msg × MemoryState :=
  let m1 := clean_expired m now
  match findSession m1.sessions sid with
  | none => ([], m1)
  | some d => (d.history.drop (d.history.length - maxMessages), m1)

/-! ## `VehicleChatbot` (src/app/chatbot.py)

The chatbot's mutable attributes (`query_cache`, `memory`, `error_count`)
are `ChatState`; one `process_query` call maps a state to a response, a new
state and the number of oracle invocations it performed.  The oracles the
call may consult (`llm.route_query` as parsed decision, `semantic.search`,
`llm.generate` for SQL and formatting, the database cursor) form `Env`;
`Except.error` marks a raised exception, which `process_query`'s
`try/except` turns into `_handle_error`. -/

/-- The routing decision the orchestrator reads out of `route_query`'s JSON
    (`routing["use_semantic"]`, `routing["reason"]`). -/
structure RoutingDecision where
  use_semantic : Bool
  reason : String
deriving DecidableEq

/-- The enrichment summary built by `_enrich_results` (`source_files` holds
    the `f` of the `{"file": f}` wrappers). -/
structure Enrichment where
  source_files : List String
  top_damage : String × Nat
  top_inspector : String × Nat
  record_count : Nat
deriving DecidableEq

/-- How many times each oracle was invoked during one `process_query` call. -/
structure Calls where
  route : Nat
  semantic : Nat
  genSql : Nat
  db : Nat
  format : Nat
deriving DecidableEq

/-- No oracle invocation at all. -/
def zeroCalls : Calls := ⟨0, 0, 0, 0, 0⟩

/-- The chatbot's mutable state. -/
structure ChatState where
  query_cache : List (String × String)
  memory : MemoryState
  error_count : Nat
deriving DecidableEq

/-- The state of a freshly constructed `VehicleChatbot`. -/
def initialState : ChatState := ⟨[], emptyMemory, 0⟩

/-- Oracle behaviours during one call.  `genSqlRaw` and `formatRaw` are the
    raw `llm.generate` outputs for the SQL and formatting prompts (the
    deterministic `_clean_sql` / `_polish_response` post-passes are applied
    by the pipeline itself); `dbCursor` is the cursor oracle fed to
    `execute_query`. -/
structure Env where
  route : String → RoutingDecision
  semantic : String → Except String (List Row)
  genSqlRaw : String → Option (List Row) → Option String
  dbCursor : String → Except String CursorOutcome
  formatRaw : String → List Row → Option Enrichment → Option (List Msg) → Option String

/-- `VehicleChatbot` destructive keyword denylist (chatbot.py, line 31). -/
def destructive_keywords : List String :=
  ["delete", "drop", "truncate", "alter", "update", "insert"]

/-- `VehicleChatbot._is_destructive_query`. -/
def isDestructive (q : String) : Bool :=
  destructive_keywords.any (fun k => containsStr (pyLower q) k)

/-- `VehicleChatbot._get_cached_response`: first stored query whose
    `lower().strip()` form equals the incoming query's. -/
def get_cached_response (cache : List (String × String)) (q : String) : Option String :=
  (cache.find? (fun kv => pyNormalize kv.1 == pyNormalize q)).map (·.2)

/-- Python dict assignment `d[k] = v`: overwrite in place or append. -/
def pyDictInsert (cache : List (String × String)) (k v : String) :
    List (String × String) :=
  if (cache.find? (fun kv => kv.1 == k)).isSome then
    cache.map (fun kv => if kv.1 == k then (kv.1, v) else kv)
  else cache ++ [(k, v)]

/-- Counter-dict update `d[k] = d.get(k, 0) + 1` with insertion order. -/
def bumpCount (l : List (String × Nat)) (k : String) : List (String × Nat) :=
  if (l.find? (fun kv => kv.1 == k)).isSome then
    l.map (fun kv => if kv.1 == k then (kv.1, kv.2 + 1) else kv)
  else l ++ [(k, 1)]

/-- One step of collecting the truthy values of field `key`: add the value
    to the accumulator unless falsy or already present. -/
def collectStep (key : String) (acc : List String) (rec : Row) : List String :=
  match rowGet rec key with
  | some s => if s = "" then acc else (if s ∈ acc then acc else acc ++ [s])
  | none => acc

/-- Collect the truthy values of field `key` over the rows, first occurrence
    order, duplicates removed (the contents of the Python `set`). -/
def collectDistinct (results : List Row) (key : String) : List String :=
  results.foldl (collectStep key) []

/-- Ascending insertion into a sorted list (Python string `<`). -/
def insortStr (s : String) : List String → List String
  | [] => [s]
  | t :: ts => if t < s then t :: insortStr s ts else s :: t :: ts

/-- Python `sorted` on strings. -/
def sortStr (l : List String) : List String := l.foldr insortStr []

/-- `damage.split('-')[0]`. -/
def firstSegment (d : String) : String := ⟨d.data.takeWhile (fun c => c != '-')⟩

/-- The damage-category key of `_enrich_results`:
    `damage.split('-')[0].strip().lower()`. -/
def damageKey (d : String) : String := pyLower (pyStrip (firstSegment d))

/-- The damage-category key as the claim words it (C9): the segment before
    the first `-`, lowercased — without the `strip()` the code performs. -/
def damageKeyClaimed (d : String) : String := pyLower (firstSegment d)

/-- The `damage_types` counter dict after the enrichment loop, for a given
    key function. -/
def damageCounts (key : String → String) (results : List Row) : List (String × Nat) :=
  results.foldl (fun acc rec =>
    match rowGet rec "damage_descriptions" with
    | some d => if d = "" then acc else bumpCount acc (key d)
    | none => acc) []

/-- The `inspectors` counter dict after the enrichment loop. -/
def inspectorCounts (results : List Row) : List (String × Nat) :=
  results.foldl (fun acc rec =>
    match rowGet rec "inspector_name" with
    | some i => if i = "" then acc else bumpCount acc (pyLower i)
    | none => acc) []

/-- Python `max(items, key=lambda x: x[1], default=dflt)`: the first entry
    carrying the maximal count, or the default on an empty dict. -/
def pyMax (dflt : String × Nat) : List (String × Nat) → String × Nat
  | [] => dflt
  | x :: xs => xs.foldl (fun b kv => if kv.2 > b.2 then kv else b) x

/-- `_enrich_results` with an explicit damage-key function; `none` is the
    empty dict returned for an empty result set. -/
def enrichWith (key : String → String) (results : List Row) : Option Enrichment :=
  match results with
  | [] => none
  | _ :: _ =>
    some { source_files := (sortStr (collectDistinct results "source_file")).take 3
           top_damage := pyMax ("none", 0) (damageCounts key results)
           top_inspector := pyMax ("unknown", 0) (inspectorCounts results)
           record_count := results.length }

/-- `VehicleChatbot._enrich_results` (chatbot.py, lines 107-137).  The
    `semantic_matches` parameter of the source is unused by its body and is
    omitted. -/
def enrich_results (results : List Row) : Option Enrichment :=
  enrichWith damageKey results

/-- `_enrich_results` as claim C9 words the damage category, for comparison. -/
def enrichClaimed (results : List Row) : Option Enrichment :=
  enrichWith damageKeyClaimed results

/-- `VehicleChatbot._generate_suggestion` (chatbot.py, lines 148-159). -/
def generate_suggestion (q : String) (history : List Msg) : String :=
  let ql := pyLower q
  if containsStr ql "vin" then "Please verify the VIN number."
  else if containsStr ql "date" || containsStr ql "month" || containsStr ql "year" then
    "Try adjusting the date range."
  else
    match history.getLast? with
    | some last =>
      if containsStr (pyLower last.content) "model" then
        "Try specifying the manufacturer (e.g., 'Ford F150')."
      else "Try being more specific with your criteria."
    | none => "Try being more specific with your criteria."

/-- Fixed user-facing strings of the orchestrator. -/
def refusalMsg : String := "I can only provide read-only inspection data."

def needDetailsMsg : String := "I need more details to answer that."

def troubleMsg : String :=
  "I'm having trouble finding that information. Please try different criteria."

def unavailableMsg : String :=
  "Our systems are temporarily unavailable. Please try again later."

def rephraseMsg : String := "I didn't understand that request. Please try rephrasing."

def unexpectedMsg : String := "An unexpected error occurred. Please try again."

/-- The keyword triage of `VehicleChatbot._handle_error` on the lowercased
    error text. -/
def error_user_message (em : String) : String :=
  if containsStr em "connection" then unavailableMsg
  else if containsStr em "syntax" || containsStr em "sql" then rephraseMsg
  else unexpectedMsg

/-- `VehicleChatbot._handle_error` (chatbot.py, lines 167-182): lowercase the
    error text, pick the user message, log a truncated system message into
    the session memory when a session is active. -/
def handle_error (st : ChatState) (msg : String) (sid : Option String) (now : Int) :
    String × ChatState :=
  let em := pyLower msg
  let m := error_user_message em
  let mem := match sid with
    | some s => add_message st.memory s "system" ("Error: " ++ take100 em) now
    | none => st.memory
  (m, { st with memory := mem })

/-- The `except` branch of `process_query` (chatbot.py, lines 56-58):
    increment the error counter, then translate via `_handle_error`. -/
def exceptBranch (st : ChatState) (msg : String) (sid : Option String) (now : Int)
    (c : Calls) : String × ChatState × Calls :=
  let st1 := { st with error_count := st.error_count + 1 }
  let (m, st2) := handle_error st1 msg sid now
  (m, st2, c)

/-- `VehicleChatbot._handle_empty_results` (chatbot.py, lines 139-146). -/
def handle_empty_results (st : ChatState) (q : String) (sid : Option String) (now : Int) :
    String × ChatState :=
  if st.error_count > 2 then (troubleMsg, st)
  else
    let hm := match sid with
      | some s => get_history st.memory s 10 now
      | none => ([], st.memory)
    ("No matching records found. " ++ generate_suggestion q hm.1,
      { st with memory := hm.2 })

/-- `VehicleChatbot._execute_query_flow` (chatbot.py, lines 82-105), with the
    calls made so far threaded through; `.error` is a raised exception
    carrying the Python message and the calls performed up to the raise. -/
def execute_query_flow (env : Env) (st : ChatState) (q : String)
    (sem : Option (List Row)) (sid : Option String) (now : Int) (c0 : Calls) :
    Except (String × Calls) (String × ChatState × Calls) :=
  match env.genSqlRaw q sem with
  | none => .ok (needDetailsMsg, st, { c0 with genSql := c0.genSql + 1 })
  | some raw =>
    let sql := clean_sql raw
    let c1 := { c0 with genSql := c0.genSql + 1, db := c0.db + 1 }
    match execute_query (env.dbCursor sql) with
    | .error m => .error (m, c1)
    | .ok none =>
      let rs := handle_empty_results st q sid now
      .ok (rs.1, rs.2, c1)
    | .ok (some []) =>
      let rs := handle_empty_results st q sid now
      .ok (rs.1, rs.2, c1)
    | .ok (some rows) =>
      let hm := match sid with
        | some s => get_history st.memory s 10 now
        | none => ([], st.memory)
      let hist : Option (List Msg) := match sid with
        | some _ => if hm.1 = [] then none else some hm.1
        | none => none
      let enr := enrich_results rows
      let resp := format_response (env.formatRaw q rows enr hist)
      let c2 := { c1 with format := c1.format + 1 }
      let cache2 := pyDictInsert st.query_cache q resp
      let mem2 := match sid with
        | some s => add_message hm.2 s "assistant" resp now
        | none => hm.2
      .ok (resp, ⟨cache2, mem2, st.error_count⟩, c2)

/-- The body of `process_query` after the cache check (chatbot.py, lines
    42-58): destructive guard, routing, optional semantic retrieval,
    execution flow with the error-counter reset, exception translation. -/
def process_body (env : Env) (st : ChatState) (q : String) (sid : Option String)
    (now : Int) : String × ChatState × Calls :=
  if isDestructive q then (refusalMsg, st, zeroCalls)
  else
    let routing := env.route q
    if routing.use_semantic then
      match env.semantic q with
      | .error m => exceptBranch st m sid now ⟨1, 1, 0, 0, 0⟩
      | .ok ms =>
        match execute_query_flow env st q (some ms) sid now ⟨1, 1, 0, 0, 0⟩ with
        | .ok (r, st1, c) => (r, { st1 with error_count := 0 }, c)
        | .error (m, c) => exceptBranch st m sid now c
    else
      match execute_query_flow env st q none sid now ⟨1, 0, 0, 0, 0⟩ with
      | .ok (r, st1, c) => (r, { st1 with error_count := 0 }, c)
      | .error (m, c) => exceptBranch st m sid now c

/-- A `session_id` equal to `None` or `""` is Python-falsy at every
    `if session_id:` guard in the pipeline; normalize it to `none` once. -/
def normSid : Option String → Option String
  | some s => if s = "" then none else some s
  | none => none

/-- `VehicleChatbot.process_query` (chatbot.py, lines 34-58). -/
def process_query (env : Env) (st : ChatState) (q : String) (sid0 : Option String)
    (now : Int) : String × ChatState × Calls :=
  match get_cached_response st.query_cache q with
  | some r => if r = "" then process_body env st q (normSid sid0) now else (r, st, zeroCalls)
  | none => process_body env st q (normSid sid0) now

/-- The states a `VehicleChatbot` can actually be in: the fresh state, plus
    anything `process_query` produces from a reachable state, under any
    oracle behaviour. -/
inductive Reachable : ChatState → Prop where
  | init : Reachable initialState
  | step (env : Env) (st : ChatState) (q : String) (sid : Option String) (now : Int) :
      Reachable st → Reachable (process_query env st q sid now).2.1

/-! ## Pipeline branch lemmas -/

theorem process_query_hit {st : ChatState} {q r : String} (env : Env)
    (sid0 : Option String) (now : Int)
    (h : get_cached_response st.query_cache q = some r) (hne : r ≠ "") :
    process_query env st q sid0 now = (r, st, zeroCalls) := by
  unfold process_query
  rw [h]
  simp [hne]

theorem process_query_of_miss {st : ChatState} {q : String} (env : Env)
    (sid0 : Option String) (now : Int)
    (h : get_cached_response st.query_cache q = none) :
    process_query env st q sid0 now = process_body env st q (normSid sid0) now := by
  unfold process_query
  rw [h]

theorem process_query_of_hitEmpty {st : ChatState} {q : String} (env : Env)
    (sid0 : Option String) (now : Int)
    (h : get_cached_response st.query_cache q = some "") :
    process_query env st q sid0 now = process_body env st q (normSid sid0) now := by
  unfold process_query
  rw [h]
  simp

/-! ## Claim C4 — routing defaults to the structured path on malformed
    oracle output -/

/-- C4: whenever the raw routing response is absent (`None`, or Python-falsy
    `""`) or `json.loads` fails on it, `route_query` returns the JSON object
    `{"use_semantic": False, "reason": <some reason>}`: it never raises and
    never selects the semantic path on malformed oracle output. -/
theorem C4_routing_default (resp : Option String) (loads : String → Except Unit Json)
    (h : resp = none ∨ ∃ s, resp = some s ∧ (s = "" ∨ ∃ e, loads s = .error e)) :
    ∃ reason, route_query resp loads =
      Json.obj [("use_semantic", Json.bool false), ("reason", Json.str reason)] := by
  rcases h with h | ⟨s, hs, h⟩
  · subst h
    exact ⟨"Fallback", rfl⟩
  · subst hs
    rcases h with h | ⟨e, he⟩
    · subst h
      exact ⟨"Fallback", rfl⟩
    · by_cases hs' : s = ""
      · exact ⟨"Fallback", by simp [route_query, hs', fallbackRouting]⟩
      · exact ⟨"Invalid response", by simp [route_query, hs', he, fallbackRouting]⟩

/-- Witness for C4 at a concrete unparseable oracle output. -/
theorem C4_witness :
    ∃ reason, route_query (some "not json") (fun _ => Except.error ()) =
      Json.obj [("use_semantic", Json.bool false), ("reason", Json.str reason)] :=
  C4_routing_default (some "not json") (fun _ => Except.error ())
    (Or.inr ⟨"not json", rfl, Or.inr ⟨(), rfl⟩⟩)

/-! ## Claim C7 — sessions disappear from history lookups after the idle TTL -/

theorem key_unique {α : Type} {l : List (String × α)}
    (h : (l.map Prod.fst).Nodup) {kv1 kv2 : String × α}
    (h1 : kv1 ∈ l) (h2 : kv2 ∈ l) (he : kv1.1 = kv2.1) : kv1 = kv2 := by
  induction l with
  | nil => cases h1
  | cons a t ih =>
    simp only [List.map_cons, List.nodup_cons] at h
    rcases List.mem_cons.mp h1 with rfl | h1' <;>
      rcases List.mem_cons.mp h2 with rfl | h2'
    · rfl
    · exact absurd (he ▸ List.mem_map_of_mem Prod.fst h2') h.1
    · exact absurd (he ▸ List.mem_map_of_mem Prod.fst h1') h.1
    · exact ih h.2 h1' h2'

theorem findSession_filter_none {l : List (String × SessionData)} {sid : String}
    {p : String × SessionData → Bool}
    (h : ∀ kv ∈ l, kv.1 = sid → p kv = false) :
    findSession (l.filter p) sid = none := by
  unfold findSession
  rw [List.find?_eq_none.mpr]
  · rfl
  · intro kv hkv
    have hmem := List.mem_of_mem_filter hkv
    have hp := List.of_mem_filter hkv
    intro hbeq
    have : kv.1 = sid := by simpa using hbeq
    rw [h kv hmem this] at hp
    cases hp

/-- C7: if the idle time of a stored session strictly exceeds the configured
    TTL, then `get_history` (at its default window of 10) returns the empty
    list for that key and deletes the session from the store, so the session
    never appears in a later history lookup.  (The session-key list is
    duplicate-free, as Python dict keys are.) -/
theorem C7_session_ttl (m : MemoryState) (sid : String) (now : Int) (d : SessionData)
    (hkeys : (m.sessions.map Prod.fst).Nodup)
    (hfind : findSession m.sessions sid = some d)
    (hexp : now - d.last_accessed > m.ttl) :
    (get_history m sid 10 now).1 = [] ∧
      findSession (get_history m sid 10 now).2.sessions sid = none := by
  have hnone : findSession (clean_expired m now).sessions sid = none := by
    unfold clean_expired
    dsimp only
    apply findSession_filter_none
    intro kv hkv hk
    have hkv0 : ∃ kv0, m.sessions.find? (fun kv => kv.1 == sid) = some kv0 ∧ kv0.2 = d := by
      unfold findSession at hfind
      cases hf : m.sessions.find? (fun kv => kv.1 == sid) with
      | none => rw [hf] at hfind; cases hfind
      | some kv0 => rw [hf] at hfind; exact ⟨kv0, rfl, by simpa using hfind⟩
    obtain ⟨kv0, hf0, hd0⟩ := hkv0
    have hmem0 := List.mem_of_find?_eq_some hf0
    have hkey0 : kv0.1 = sid := by
      have := List.find?_some hf0
      simpa using this
    have : kv = kv0 := key_unique hkeys hkv hmem0 (by rw [hk, hkey0])
    subst this
    rw [hd0]
    simp only [Bool.not_eq_true', decide_eq_false_iff_not, not_not] at *
    simpa using hexp
  constructor
  · unfold get_history
    dsimp only
    rw [hnone]
  · unfold get_history
    dsimp only
    rw [hnone]
    exact hnone

/-- Witness for C7: a session last touched at minute 0 with the default
    60-minute TTL is gone at minute 61. -/
theorem C7_witness :
    (get_history ⟨[("s1", ⟨[⟨"user", "hello", 0⟩], 0, 0⟩)], 60⟩ "s1" 10 61).1 = [] ∧
      findSession (get_history ⟨[("s1", ⟨[⟨"user", "hello", 0⟩], 0, 0⟩)], 60⟩
        "s1" 10 61).2.sessions "s1" = none :=
  C7_session_ttl ⟨[("s1", ⟨[⟨"user", "hello", 0⟩], 0, 0⟩)], 60⟩ "s1" 61
    ⟨[⟨"user", "hello", 0⟩], 0, 0⟩ (by decide) rfl (by decide)

/-! ## State-shape lemmas for the pipeline -/

theorem handle_error_cache (st : ChatState) (m : String) (sid : Option String) (now : Int) :
    (handle_error st m sid now).2.query_cache = st.query_cache := rfl

theorem exceptBranch_cache (st : ChatState) (m : String) (sid : Option String) (now : Int)
    (c : Calls) : (exceptBranch st m sid now c).2.1.query_cache = st.query_cache := rfl

theorem handle_empty_cache (st : ChatState) (q : String) (sid : Option String) (now : Int) :
    (handle_empty_results st q sid now).2.query_cache = st.query_cache := by
  unfold handle_empty_results
  split <;> rfl

theorem flow_ok_cache {env : Env} {st : ChatState} {q : String} {sem : Option (List Row)}
    {sid : Option String} {now : Int} {c0 : Calls} {r : String} {st1 : ChatState} {c : Calls}
    (h : execute_query_flow env st q sem sid now c0 = .ok (r, st1, c)) :
    st1.query_cache = st.query_cache ∨
      (r ≠ "" ∧ st1.query_cache = pyDictInsert st.query_cache q r) := by
  cases hg : env.genSqlRaw q sem with
  | none =>
    simp only [execute_query_flow, hg, Except.ok.injEq, Prod.mk.injEq] at h
    obtain ⟨-, h2, -⟩ := h
    left; rw [← h2]
  | some raw =>
    simp only [execute_query_flow, hg] at h
    cases hdb : execute_query (env.dbCursor (clean_sql raw)) with
    | error m => simp only [hdb] at h; cases h
    | ok orows =>
      cases orows with
      | none =>
        simp only [hdb, Except.ok.injEq, Prod.mk.injEq] at h
        obtain ⟨-, h2, -⟩ := h
        left; rw [← h2]; exact handle_empty_cache ..
      | some rows =>
        cases rows with
        | nil =>
          simp only [hdb, Except.ok.injEq, Prod.mk.injEq] at h
          obtain ⟨-, h2, -⟩ := h
          left; rw [← h2]; exact handle_empty_cache ..
        | cons r0 rs =>
          simp only [hdb, Except.ok.injEq, Prod.mk.injEq] at h
          obtain ⟨h1, h2, -⟩ := h
          right
          refine ⟨?_, ?_⟩
          · rw [← h1]; exact format_response_ne_empty _
          · rw [← h2, ← h1]

theorem process_body_destr {q : String} (env : Env) (st : ChatState) (sid : Option String)
    (now : Int) (hd : isDestructive q = true) :
    process_body env st q sid now = (refusalMsg, st, zeroCalls) := by
  simp [process_body, hd]

theorem process_body_sem_err {env : Env} {q m : String} (st : ChatState)
    (sid : Option String) (now : Int) (hd : isDestructive q = false)
    (hsem : (env.route q).use_semantic = true) (hs : env.semantic q = .error m) :
    process_body env st q sid now = exceptBranch st m sid now ⟨1, 1, 0, 0, 0⟩ := by
  simp [process_body, hd, hsem, hs]

theorem process_body_sem_ok {env : Env} {q : String} {ms : List Row} (st : ChatState)
    (sid : Option String) (now : Int) (hd : isDestructive q = false)
    (hsem : (env.route q).use_semantic = true) (hs : env.semantic q = .ok ms) :
    process_body env st q sid now =
      match execute_query_flow env st q (some ms) sid now ⟨1, 1, 0, 0, 0⟩ with
      | .ok (r, st1, c) => (r, { st1 with error_count := 0 }, c)
      | .error (m, c) => exceptBranch st m sid now c := by
  simp [process_body, hd, hsem, hs]

theorem process_body_nosem {env : Env} {q : String} (st : ChatState)
    (sid : Option String) (now : Int) (hd : isDestructive q = false)
    (hsem : (env.route q).use_semantic = false) :
    process_body env st q sid now =
      match execute_query_flow env st q none sid now ⟨1, 0, 0, 0, 0⟩ with
      | .ok (r, st1, c) => (r, { st1 with error_count := 0 }, c)
      | .error (m, c) => exceptBranch st m sid now c := by
  simp [process_body, hd, hsem]

theorem process_body_cache (env : Env) (st : ChatState) (q : String) (sid : Option String)
    (now : Int) :
    (process_body env st q sid now).2.1.query_cache = st.query_cache ∨
    (isDestructive q = false ∧ ∃ resp, resp ≠ "" ∧
      (process_body env st q sid now).2.1.query_cache = pyDictInsert st.query_cache q resp) := by
  cases hd : isDestructive q with
  | true => left; rw [process_body_destr env st sid now hd]
  | false =>
    cases hsem : (env.route q).use_semantic with
    | true =>
      cases hs : env.semantic q with
      | error m =>
        left
        rw [process_body_sem_err st sid now hd hsem hs]
        exact exceptBranch_cache ..
      | ok ms =>
        rw [process_body_sem_ok st sid now hd hsem hs]
        cases hflow : execute_query_flow env st q (some ms) sid now ⟨1, 1, 0, 0, 0⟩ with
        | ok rsc =>
          obtain ⟨r, st1, c⟩ := rsc
          dsimp only
          rcases flow_ok_cache hflow with h1 | ⟨h1, h2⟩
          · left; exact h1
          · right; exact ⟨rfl, r, h1, h2⟩
        | error mc =>
          obtain ⟨m, c⟩ := mc
          dsimp only
          left; exact exceptBranch_cache ..
    | false =>
      rw [process_body_nosem st sid now hd hsem]
      cases hflow : execute_query_flow env st q none sid now ⟨1, 0, 0, 0, 0⟩ with
      | ok rsc =>
        obtain ⟨r, st1, c⟩ := rsc
        dsimp only
        rcases flow_ok_cache hflow with h1 | ⟨h1, h2⟩
        · left; exact h1
        · right; exact ⟨rfl, r, h1, h2⟩
      | error mc =>
        obtain ⟨m, c⟩ := mc
        dsimp only
        left; exact exceptBranch_cache ..

theorem process_query_cache (env : Env) (st : ChatState) (q : String) (sid0 : Option String)
    (now : Int) :
    (process_query env st q sid0 now).2.1.query_cache = st.query_cache ∨
    (isDestructive q = false ∧ ∃ resp, resp ≠ "" ∧
      (process_query env st q sid0 now).2.1.query_cache = pyDictInsert st.query_cache q resp) := by
  unfold process_query
  split
  · split
    · exact process_body_cache ..
    · left; rfl
  · exact process_body_cache ..

theorem pyDictInsert_mem {cache : List (String × String)} {k v : String}
    {kv : String × String} (h : kv ∈ pyDictInsert cache k v) :
    kv ∈ cache ∨ kv = (k, v) := by
  unfold pyDictInsert at h
  split at h
  · obtain ⟨a, ha, hfa⟩ := List.mem_map.mp h
    by_cases hk : a.1 == k
    · rw [if_pos hk] at hfa
      right
      rw [← hfa]
      have : a.1 = k := by simpa using hk
      rw [this]
    · rw [if_neg hk] at hfa
      left; rw [← hfa]; exact ha
  · rcases List.mem_append.mp h with h1 | h1
    · left; exact h1
    · right; simpa using h1

/-- Cache well-formedness: every stored query passed the destructive guard
    and every stored response came out of `_polish_response`, hence is
    non-empty. -/
def CacheInv (st : ChatState) : Prop :=
  ∀ kv ∈ st.query_cache, isDestructive kv.1 = false ∧ kv.2 ≠ ""

theorem reachable_cacheInv {st : ChatState} (h : Reachable st) : CacheInv st := by
  induction h with
  | init => intro kv hkv; cases hkv
  | step env st q sid now hst ih =>
    intro kv hkv
    rcases process_query_cache env st q sid now with hsame | ⟨hq, resp, hresp, hins⟩
    · rw [hsame] at hkv; exact ih kv hkv
    · rw [hins] at hkv
      rcases pyDictInsert_mem hkv with h1 | h1
      · exact ih kv h1
      · rw [h1]; exact ⟨hq, hresp⟩

/-! ## Substring reasoning for the destructive-keyword guard -/

theorem isPrefixL_iff {sub l : List Char} : isPrefixL sub l = true ↔ sub <+: l := by
  induction sub generalizing l with
  | nil => simp [isPrefixL]
  | cons a as ih =>
    cases l with
    | nil => simp [isPrefixL]
    | cons b bs =>
      simp [isPrefixL, ih, List.cons_prefix_cons]

theorem isInfixL_iff {sub l : List Char} : isInfixL sub l = true ↔ sub <:+: l := by
  induction l with
  | nil => cases sub <;> simp [isInfixL, isPrefixL]
  | cons b bs ih => simp [isInfixL, isPrefixL_iff, ih, List.infix_cons_iff]

theorem infix_dropWhile_of_nonWs {sub l : List Char} (hne : sub ≠ [])
    (hws : ∀ c ∈ sub, ¬ c.isWhitespace) (h : sub <:+: l) :
    sub <:+: l.dropWhile Char.isWhitespace := by
  induction l with
  | nil =>
    rw [List.infix_nil] at h
    exact absurd h hne
  | cons c t ih =>
    by_cases hc : Char.isWhitespace c
    · rw [List.dropWhile_cons_of_pos hc]
      rcases List.infix_cons_iff.mp h with hpre | hinf
      · cases sub with
        | nil => exact absurd rfl hne
        | cons s0 ss =>
          have := (List.cons_prefix_cons.mp hpre).1
          exact absurd (this ▸ hc) (hws s0 (List.mem_cons_self s0 ss))
      · exact ih hinf
    · rwa [List.dropWhile_cons_of_neg hc]

theorem infix_stripL_of_nonWs {sub l : List Char} (hne : sub ≠ [])
    (hws : ∀ c ∈ sub, ¬ c.isWhitespace) (h : sub <:+: l) :
    sub <:+: stripL l := by
  unfold stripL
  have h1 : sub <:+: l.dropWhile Char.isWhitespace := infix_dropWhile_of_nonWs hne hws h
  have h2 : sub.reverse <:+: (l.dropWhile Char.isWhitespace).reverse :=
    List.reverse_infix.mpr h1
  have h3 : sub.reverse <:+:
      ((l.dropWhile Char.isWhitespace).reverse).dropWhile Char.isWhitespace :=
    infix_dropWhile_of_nonWs (by simpa using hne)
      (fun c hc => hws c (List.mem_reverse.mp hc)) h2
  exact List.reverse_infix.mp (by rwa [List.reverse_reverse])

theorem stripL_infix_self (l : List Char) : stripL l <:+: l := by
  unfold stripL
  have h2 : (l.dropWhile Char.isWhitespace).reverse.dropWhile Char.isWhitespace <:+:
      (l.dropWhile Char.isWhitespace).reverse :=
    (List.dropWhile_suffix _).isInfix
  have h3 : ((l.dropWhile Char.isWhitespace).reverse.dropWhile Char.isWhitespace).reverse <:+:
      l.dropWhile Char.isWhitespace :=
    List.reverse_infix.mp (by rwa [List.reverse_reverse])
  exact h3.trans (List.dropWhile_suffix _).isInfix

/-- Two queries with the same `lower().strip()` normal form agree on the
    destructive-keyword guard: the keywords contain no whitespace, so
    stripping cannot create or destroy an occurrence. -/
theorem isDestructive_of_normEq {k q : String} (hn : pyNormalize k = pyNormalize q)
    (hd : isDestructive q = true) : isDestructive k = true := by
  unfold isDestructive at hd ⊢
  rw [List.any_eq_true] at hd ⊢
  obtain ⟨kw, hkw, hin⟩ := hd
  refine ⟨kw, hkw, ?_⟩
  unfold containsStr at hin ⊢
  rw [isInfixL_iff] at hin ⊢
  have hprops : kw.data ≠ [] ∧ ∀ c ∈ kw.data, ¬ c.isWhitespace := by
    simp only [destructive_keywords, List.mem_cons, List.not_mem_nil, or_false] at hkw
    rcases hkw with rfl | rfl | rfl | rfl | rfl | rfl <;> exact ⟨by simp, by decide⟩
  have h1 : kw.data <:+: stripL (pyLower q).data :=
    infix_stripL_of_nonWs hprops.1 hprops.2 hin
  have hdata : stripL (pyLower k).data = stripL (pyLower q).data := congrArg String.data hn
  rw [← hdata] at h1
  exact h1.trans (stripL_infix_self (pyLower k).data)

theorem get_cached_some {cache : List (String × String)} {q r : String}
    (h : get_cached_response cache q = some r) :
    ∃ kv ∈ cache, pyNormalize kv.1 = pyNormalize q ∧ kv.2 = r := by
  unfold get_cached_response at h
  cases hf : cache.find? (fun kv => pyNormalize kv.1 == pyNormalize q) with
  | none => rw [hf] at h; cases h
  | some kv =>
    rw [hf] at h
    exact ⟨kv, List.mem_of_find?_eq_some hf, by simpa using List.find?_some hf,
      by simpa using h⟩

/-! ## Claim C2 — the destructive-intent guard -/

/-- C2: from any reachable chatbot state (any cache and memory built up by
    earlier `process_query` calls), a query containing a denylisted keyword
    returns the fixed refusal message, leaves the state untouched and makes
    no oracle call at all — in particular SQL synthesis (`generate_sql`) is
    never invoked for it. -/
theorem C2_destructive_guard (env : Env) (st : ChatState) (q : String)
    (sid0 : Option String) (now : Int) (hr : Reachable st)
    (hd : isDestructive q = true) :
    process_query env st q sid0 now = (refusalMsg, st, zeroCalls) := by
  have hinv := reachable_cacheInv hr
  cases hc : get_cached_response st.query_cache q with
  | none =>
    rw [process_query_of_miss env sid0 now hc, process_body_destr env st (normSid sid0) now hd]
  | some r =>
    obtain ⟨kv, hmem, hnorm, hval⟩ := get_cached_some hc
    have : isDestructive kv.1 = true := isDestructive_of_normEq hnorm hd
    exact absurd this (by simp [(hinv kv hmem).1])

/-- Witness for C2 at the fresh state and a concrete destructive query. -/
theorem C2_witness :
    process_query
      { route := fun _ => ⟨false, "fallback"⟩
        semantic := fun _ => .ok []
        genSqlRaw := fun _ _ => some "SELECT vin FROM inspections"
        dbCursor := fun _ => .ok (.ok (some ["vin"]) [["V1"]])
        formatRaw := fun _ _ _ _ => some "one record" }
      initialState "DROP TABLE inspections" none 0 =
      (refusalMsg, initialState, zeroCalls) :=
  C2_destructive_guard _ initialState "DROP TABLE inspections" none 0
    Reachable.init (by decide)

/-! ## Claim C8 — exception translation at the orchestrator boundary -/

theorem flow_dbError {env : Env} {q raw m : String} {sem : Option (List Row)}
    (st : ChatState) (sid : Option String) (now : Int) (c0 : Calls)
    (hg : env.genSqlRaw q sem = some raw)
    (he : env.dbCursor (clean_sql raw) = .error m) :
    execute_query_flow env st q sem sid now c0 =
      .error (m, { c0 with genSql := c0.genSql + 1, db := c0.db + 1 }) := by
  simp [execute_query_flow, hg, execute_query, he]

/-- C8: the keyword triage of `_handle_error` maps every error text to
    exactly one of the three fixed user messages — `"connection"` wins,
    otherwise `"syntax"`/`"sql"`, otherwise the generic message — and an
    exception raised inside the pipeline (here: by the database cursor) is
    caught by `process_query`, which returns that mapped message instead of
    propagating. -/
theorem C8_error_translation :
    (∀ em : String,
      (containsStr em "connection" = true → error_user_message em = unavailableMsg) ∧
      (containsStr em "connection" = false →
        (containsStr em "syntax" || containsStr em "sql") = true →
          error_user_message em = rephraseMsg) ∧
      (containsStr em "connection" = false → containsStr em "syntax" = false →
        containsStr em "sql" = false → error_user_message em = unexpectedMsg)) ∧
    (∀ (env : Env) (st : ChatState) (q : String) (sid0 : Option String) (now : Int)
        (raw m : String),
      get_cached_response st.query_cache q = none →
      isDestructive q = false →
      (env.route q).use_semantic = false →
      env.genSqlRaw q none = some raw →
      env.dbCursor (clean_sql raw) = .error m →
      (process_query env st q sid0 now).1 = error_user_message (pyLower m)) := by
  constructor
  · intro em
    refine ⟨?_, ?_, ?_⟩
    · intro h; simp [error_user_message, h]
    · intro h1 h2; simp [error_user_message, h1, h2]
    · intro h1 h2 h3; simp [error_user_message, h1, h2, h3]
  · intro env st q sid0 now raw m hc hd hsem hg he
    rw [process_query_of_miss env sid0 now hc,
      process_body_nosem st (normSid sid0) now hd hsem,
      flow_dbError st (normSid sid0) now ⟨1, 0, 0, 0, 0⟩ hg he]
    rfl

/-- Witness for C8: a raised connection error at a concrete input is mapped
    to the temporarily-unavailable message. -/
theorem C8_witness :
    error_user_message "connection refused by host" = unavailableMsg ∧
    (process_query
      { route := fun _ => ⟨false, "fallback"⟩
        semantic := fun _ => .ok []
        genSqlRaw := fun _ _ => some "SELECT vin FROM inspections"
        dbCursor := fun _ => .error "Connection refused"
        formatRaw := fun _ _ _ _ => some "one record" }
      initialState "show records" none 0).1 =
      error_user_message (pyLower "Connection refused") :=
  ⟨(C8_error_translation.1 "connection refused by host").1 (by decide),
    C8_error_translation.2 _ initialState "show records" none 0
      "SELECT vin FROM inspections" "Connection refused" rfl (by decide) rfl rfl rfl⟩

/-! ## Claim C1 — zero-row results versus database execution errors

`DatabaseManager.execute_query` does produce distinguishable values (`None`
for a caught execution error, `[]` for zero rows — its source comments say
`# Differentiate between empty results and errors`), but the orchestrator's
`_execute_query_flow` tests `if not results:`, which is true for both, so a
database execution error takes the *same* empty-result suggestion path as a
zero-row result and never reaches the generic-error path.  The theorem
evaluates the pipeline at both outcomes of the same query and shows the
responses coincide and are not any of the three `_handle_error` messages. -/

/-- Oracles for a query whose SQL raises inside the cursor. -/
def dbRaisesEnv : Env :=
  { route := fun _ => ⟨false, "fallback"⟩
    semantic := fun _ => .ok []
    genSqlRaw := fun _ _ => some "SELECT vin FROM inspections"
    dbCursor := fun _ => .ok (.raises "relation inspections does not exist")
    formatRaw := fun _ _ _ _ => some "one record" }

/-- The same oracles except the SQL executes and returns zero rows. -/
def dbZeroRowsEnv : Env :=
  { dbRaisesEnv with dbCursor := fun _ => .ok (.ok (some ["vin"]) []) }

/-- C1 (code-bug evidence): `execute_query` distinguishes an execution error
    (`None`) from zero rows (`[]`), yet `process_query` produces the
    identical empty-result suggestion response for both, and that response is
    none of the three generic-error messages — the caller cannot observe the
    distinction and the error does not take the generic-error path. -/
theorem C1_empty_error_collapsed :
    execute_query (.ok (.raises "relation inspections does not exist")) = .ok none ∧
    execute_query (.ok (.ok (some ["vin"]) [])) = .ok (some []) ∧
    process_query dbRaisesEnv initialState "list damages" none 0 =
      process_query dbZeroRowsEnv initialState "list damages" none 0 ∧
    (process_query dbRaisesEnv initialState "list damages" none 0).1 =
      "No matching records found. Try being more specific with your criteria." ∧
    (process_query dbRaisesEnv initialState "list damages" none 0).1 ≠ unavailableMsg ∧
    (process_query dbRaisesEnv initialState "list damages" none 0).1 ≠ rephraseMsg ∧
    (process_query dbRaisesEnv initialState "list damages" none 0).1 ≠ unexpectedMsg := by
  refine ⟨rfl, rfl, rfl, rfl, by decide, by decide, by decide⟩

/-! ## Call-count characterization of the pipeline -/

theorem flow_ok_main {env : Env} {st : ChatState} {q : String} {sem : Option (List Row)}
    {sid : Option String} {now : Int} {c0 : Calls} {r : String} {st1 : ChatState} {c : Calls}
    (h : execute_query_flow env st q sem sid now c0 = .ok (r, st1, c)) :
    (c.format = c0.format ∧ st1.query_cache = st.query_cache) ∨
      (c.format = c0.format + 1 ∧ r ≠ "" ∧
        st1.query_cache = pyDictInsert st.query_cache q r) := by
  cases hg : env.genSqlRaw q sem with
  | none =>
    simp only [execute_query_flow, hg, Except.ok.injEq, Prod.mk.injEq] at h
    obtain ⟨-, h2, h3⟩ := h
    left; rw [← h2, ← h3]; exact ⟨rfl, rfl⟩
  | some raw =>
    simp only [execute_query_flow, hg] at h
    cases hdb : execute_query (env.dbCursor (clean_sql raw)) with
    | error m => simp only [hdb] at h; cases h
    | ok orows =>
      cases orows with
      | none =>
        simp only [hdb, Except.ok.injEq, Prod.mk.injEq] at h
        obtain ⟨-, h2, h3⟩ := h
        left
        rw [← h2, ← h3]
        exact ⟨rfl, handle_empty_cache ..⟩
      | some rows =>
        cases rows with
        | nil =>
          simp only [hdb, Except.ok.injEq, Prod.mk.injEq] at h
          obtain ⟨-, h2, h3⟩ := h
          left
          rw [← h2, ← h3]
          exact ⟨rfl, handle_empty_cache ..⟩
        | cons r0 rs =>
          simp only [hdb, Except.ok.injEq, Prod.mk.injEq] at h
          obtain ⟨h1, h2, h3⟩ := h
          right
          rw [← h1, ← h2, ← h3]
          exact ⟨rfl, format_response_ne_empty _, rfl⟩

theorem flow_error_format {env : Env} {st : ChatState} {q : String}
    {sem : Option (List Row)} {sid : Option String} {now : Int} {c0 : Calls}
    {m : String} {c : Calls}
    (h : execute_query_flow env st q sem sid now c0 = .error (m, c)) :
    c.format = c0.format := by
  cases hg : env.genSqlRaw q sem with
  | none => simp only [execute_query_flow, hg] at h; cases h
  | some raw =>
    simp only [execute_query_flow, hg] at h
    cases hdb : execute_query (env.dbCursor (clean_sql raw)) with
    | error m2 =>
      simp only [hdb, Except.error.injEq, Prod.mk.injEq] at h
      rw [← h.2]
    | ok orows =>
      cases orows with
      | none => simp only [hdb] at h; cases h
      | some rows =>
        cases rows with
        | nil => simp only [hdb] at h; cases h
        | cons r0 rs => simp only [hdb] at h; cases h

theorem process_query_format_one {env : Env} {st : ChatState} {q : String}
    {sid0 : Option String} {now : Int} {r : String} {st' : ChatState} {c : Calls}
    (h : process_query env st q sid0 now = (r, st', c)) (hf : c.format = 1) :
    (get_cached_response st.query_cache q = none ∨
      get_cached_response st.query_cache q = some "") ∧
    r ≠ "" ∧ st'.query_cache = pyDictInsert st.query_cache q r := by
  have hbody : ∀ (hb : process_body env st q (normSid sid0) now = (r, st', c)),
      r ≠ "" ∧ st'.query_cache = pyDictInsert st.query_cache q r := by
    intro hb
    cases hd : isDestructive q with
    | true =>
      rw [process_body_destr env st (normSid sid0) now hd] at hb
      simp only [Prod.mk.injEq] at hb
      rw [← hb.2.2] at hf
      simp [zeroCalls] at hf
    | false =>
      cases hsem : (env.route q).use_semantic with
      | true =>
        cases hs : env.semantic q with
        | error m =>
          rw [process_body_sem_err st (normSid sid0) now hd hsem hs] at hb
          simp only [exceptBranch, handle_error, Prod.mk.injEq] at hb
          rw [← hb.2.2] at hf
          simp at hf
        | ok ms =>
          rw [process_body_sem_ok st (normSid sid0) now hd hsem hs] at hb
          cases hflow : execute_query_flow env st q (some ms) (normSid sid0) now
              ⟨1, 1, 0, 0, 0⟩ with
          | ok rsc =>
            obtain ⟨r1, st1, c1⟩ := rsc
            rw [hflow] at hb
            dsimp only at hb
            simp only [Prod.mk.injEq] at hb
            obtain ⟨he1, he2, he3⟩ := hb
            rcases flow_ok_main hflow with ⟨hc1, -⟩ | ⟨hc1, hne, hins⟩
            · rw [he3, hf] at hc1
              exact absurd hc1 (by decide)
            · subst he1
              refine ⟨hne, ?_⟩
              rw [← he2]
              exact hins
          | error mc =>
            obtain ⟨m, c1⟩ := mc
            rw [hflow] at hb
            dsimp only at hb
            simp only [exceptBranch, handle_error, Prod.mk.injEq] at hb
            have h3 := flow_error_format hflow
            rw [hb.2.2, hf] at h3
            exact absurd h3 (by decide)
      | false =>
        rw [process_body_nosem st (normSid sid0) now hd hsem] at hb
        cases hflow : execute_query_flow env st q none (normSid sid0) now
            ⟨1, 0, 0, 0, 0⟩ with
        | ok rsc =>
          obtain ⟨r1, st1, c1⟩ := rsc
          rw [hflow] at hb
          dsimp only at hb
          simp only [Prod.mk.injEq] at hb
          obtain ⟨he1, he2, he3⟩ := hb
          rcases flow_ok_main hflow with ⟨hc1, -⟩ | ⟨hc1, hne, hins⟩
          · rw [he3, hf] at hc1
            exact absurd hc1 (by decide)
          · subst he1
            refine ⟨hne, ?_⟩
            rw [← he2]
            exact hins
        | error mc =>
          obtain ⟨m, c1⟩ := mc
          rw [hflow] at hb
          dsimp only at hb
          simp only [exceptBranch, handle_error, Prod.mk.injEq] at hb
          have h3 := flow_error_format hflow
          rw [hb.2.2, hf] at h3
          exact absurd h3 (by decide)
  cases hc : get_cached_response st.query_cache q with
  | none =>
    rw [process_query_of_miss env sid0 now hc] at h
    exact ⟨Or.inl rfl, hbody h⟩
  | some r0 =>
    by_cases hr0 : r0 = ""
    · subst hr0
      rw [process_query_of_hitEmpty env sid0 now hc] at h
      exact ⟨Or.inr rfl, hbody h⟩
    · rw [process_query_hit env sid0 now hc hr0] at h
      simp only [Prod.mk.injEq] at h
      rw [← h.2.2] at hf
      simp [zeroCalls] at hf

theorem get_cached_none_mem {cache : List (String × String)} {q : String}
    (h : get_cached_response cache q = none) :
    ∀ kv ∈ cache, (pyNormalize kv.1 == pyNormalize q) = false := by
  have hfind : cache.find? (fun kv => pyNormalize kv.1 == pyNormalize q) = none := by
    cases hf : cache.find? (fun kv => pyNormalize kv.1 == pyNormalize q) with
    | none => rfl
    | some kv => unfold get_cached_response at h; rw [hf] at h; cases h
  intro kv hkv
  simpa using List.find?_eq_none.mp hfind kv hkv

/-! ## Claim C5 — the cache makes a repeated query free and reproducible -/

/-- C5: if a query `q1` issued from a reachable state completed the full
    execution flow (its call record shows one formatting call) and produced
    response `r`, then issuing any `q2` equal to `q1` modulo
    case/whitespace from the resulting state returns exactly `r`, leaves the
    state untouched and performs no oracle call at all — no routing, no SQL
    generation, no formatting, no database access. -/
theorem C5_cache_idempotent (env env2 : Env) (st : ChatState) (q1 q2 : String)
    (sid1 sid2 : Option String) (now1 now2 : Int) (r : String) (st1 : ChatState)
    (c1 : Calls) (hr : Reachable st)
    (h1 : process_query env st q1 sid1 now1 = (r, st1, c1))
    (hfull : c1.format = 1)
    (hn : pyNormalize q2 = pyNormalize q1) :
    process_query env2 st1 q2 sid2 now2 = (r, st1, zeroCalls) := by
  have hinv := reachable_cacheInv hr
  obtain ⟨hc0, hrne, hins⟩ := process_query_format_one h1 hfull
  have hnone : get_cached_response st.query_cache q1 = none := by
    rcases hc0 with h | h
    · exact h
    · obtain ⟨kv, hmem, -, hval⟩ := get_cached_some h
      exact absurd hval (hinv kv hmem).2
  have hmem := get_cached_none_mem hnone
  have hfq1 : st.query_cache.find? (fun kv => kv.1 == q1) = none := by
    rw [List.find?_eq_none]
    intro kv hkv hbeq
    have hk : kv.1 = q1 := by simpa using hbeq
    have := hmem kv hkv
    rw [hk] at this
    simp at this
  have happend : pyDictInsert st.query_cache q1 r = st.query_cache ++ [(q1, r)] := by
    unfold pyDictInsert
    rw [hfq1]
    simp
  have hlook : get_cached_response st1.query_cache q2 = some r := by
    rw [hins, happend]
    unfold get_cached_response
    rw [List.find?_append]
    have hfirst : st.query_cache.find?
        (fun kv => pyNormalize kv.1 == pyNormalize q2) = none := by
      rw [List.find?_eq_none]
      intro kv hkv hbeq
      rw [hn] at hbeq
      rw [hmem kv hkv] at hbeq
      cases hbeq
    rw [hfirst]
    have hq12 : (pyNormalize q1 == pyNormalize q2) = true := by
      rw [hn]
      exact beq_self_eq_true _
    simp [List.find?, hq12]
  exact process_query_hit env2 sid2 now2 hlook hrne

/-- A deterministic full-flow oracle set shared by several witnesses. -/
def fullFlowEnv : Env :=
  { route := fun _ => ⟨false, "structured"⟩
    semantic := fun _ => .ok []
    genSqlRaw := fun _ _ => some "SELECT vin FROM inspections"
    dbCursor := fun _ => .ok (.ok (some ["vin"]) [["V1"]])
    formatRaw := fun _ _ _ _ => some "one vin found" }

/-- Witness for C5: a concrete query, then the same query in different
    case/whitespace, served from the cache with zero oracle calls. -/
theorem C5_witness :
    process_query fullFlowEnv
      (process_query fullFlowEnv initialState "Show vins" none 0).2.1
      "  show VINS " none 1 =
      ((process_query fullFlowEnv initialState "Show vins" none 0).1,
        (process_query fullFlowEnv initialState "Show vins" none 0).2.1, zeroCalls) :=
  C5_cache_idempotent fullFlowEnv fullFlowEnv initialState "Show vins" "  show VINS "
    none none 0 1 _ _ _ Reachable.init rfl rfl (by decide)

/-! ## Claim C10 — what a call may and may not write -/

theorem process_query_format_zero {env : Env} {st : ChatState} {q : String}
    {sid0 : Option String} {now : Int} {r : String} {st' : ChatState} {c : Calls}
    (h : process_query env st q sid0 now = (r, st', c)) (hf : c.format = 0) :
    st'.query_cache = st.query_cache := by
  have hbody : ∀ (hb : process_body env st q (normSid sid0) now = (r, st', c)),
      st'.query_cache = st.query_cache := by
    intro hb
    cases hd : isDestructive q with
    | true =>
      rw [process_body_destr env st (normSid sid0) now hd] at hb
      simp only [Prod.mk.injEq] at hb
      rw [← hb.2.1]
    | false =>
      cases hsem : (env.route q).use_semantic with
      | true =>
        cases hs : env.semantic q with
        | error m =>
          rw [process_body_sem_err st (normSid sid0) now hd hsem hs] at hb
          simp only [exceptBranch, handle_error, Prod.mk.injEq] at hb
          rw [← hb.2.1]
        | ok ms =>
          rw [process_body_sem_ok st (normSid sid0) now hd hsem hs] at hb
          cases hflow : execute_query_flow env st q (some ms) (normSid sid0) now
              ⟨1, 1, 0, 0, 0⟩ with
          | ok rsc =>
            obtain ⟨r1, st1, c1⟩ := rsc
            rw [hflow] at hb
            dsimp only at hb
            simp only [Prod.mk.injEq] at hb
            obtain ⟨-, he2, he3⟩ := hb
            rcases flow_ok_main hflow with ⟨-, hsame⟩ | ⟨hc1, -, -⟩
            · rw [← he2]
              exact hsame
            · rw [he3, hf] at hc1
              exact absurd hc1 (by decide)
          | error mc =>
            obtain ⟨m, c1⟩ := mc
            rw [hflow] at hb
            dsimp only at hb
            simp only [exceptBranch, handle_error, Prod.mk.injEq] at hb
            rw [← hb.2.1]
      | false =>
        rw [process_body_nosem st (normSid sid0) now hd hsem] at hb
        cases hflow : execute_query_flow env st q none (normSid sid0) now
            ⟨1, 0, 0, 0, 0⟩ with
        | ok rsc =>
          obtain ⟨r1, st1, c1⟩ := rsc
          rw [hflow] at hb
          dsimp only at hb
          simp only [Prod.mk.injEq] at hb
          obtain ⟨-, he2, he3⟩ := hb
          rcases flow_ok_main hflow with ⟨-, hsame⟩ | ⟨hc1, -, -⟩
          · rw [← he2]
            exact hsame
          · rw [he3, hf] at hc1
            exact absurd hc1 (by decide)
        | error mc =>
          obtain ⟨m, c1⟩ := mc
          rw [hflow] at hb
          dsimp only at hb
          simp only [exceptBranch, handle_error, Prod.mk.injEq] at hb
          rw [← hb.2.1]
  cases hc : get_cached_response st.query_cache q with
  | none =>
    rw [process_query_of_miss env sid0 now hc] at h
    exact hbody h
  | some r0 =>
    by_cases hr0 : r0 = ""
    · subst hr0
      rw [process_query_of_hitEmpty env sid0 now hc] at h
      exact hbody h
    · rw [process_query_hit env sid0 now hc hr0] at h
      simp only [Prod.mk.injEq] at h
      rw [← h.2.1]

/-- C10 (amended): (1) on a cache hit the whole state is returned unchanged
    with zero oracle calls; (2) the query cache is only written by a call
    that performed a formatting call, so refusals, empty-result suggestions
    and error messages are never stored as cache entries; (3) conversation
    memory, however, is also written on the error path: a raised database
    exception appends a `"system"` message `"Error: <lowercased text,
    truncated to 100 chars>"` to the active session. -/
theorem C10_frame_amended :
    (∀ (env : Env) (st : ChatState) (q : String) (sid0 : Option String) (now : Int)
        (r : String),
      get_cached_response st.query_cache q = some r → r ≠ "" →
      process_query env st q sid0 now = (r, st, zeroCalls)) ∧
    (∀ (env : Env) (st : ChatState) (q : String) (sid0 : Option String) (now : Int)
        (r : String) (st' : ChatState) (c : Calls),
      process_query env st q sid0 now = (r, st', c) → c.format = 0 →
      st'.query_cache = st.query_cache) ∧
    (∀ (env : Env) (st : ChatState) (q s raw m : String) (now : Int),
      get_cached_response st.query_cache q = none → isDestructive q = false →
      (env.route q).use_semantic = false → env.genSqlRaw q none = some raw →
      env.dbCursor (clean_sql raw) = .error m → s ≠ "" →
      (process_query env st q (some s) now).2.1.memory =
        add_message st.memory s "system" ("Error: " ++ take100 (pyLower m)) now) := by
  refine ⟨?_, ?_, ?_⟩
  · intro env st q sid0 now r hc hr
    exact process_query_hit env sid0 now hc hr
  · intro env st q sid0 now r st' c h hf
    exact process_query_format_zero h hf
  · intro env st q s raw m now hc hd hsem hg he hs
    have hnorm : normSid (some s) = some s := by simp [normSid, hs]
    rw [process_query_of_miss env (some s) now hc,
      process_body_nosem st (normSid (some s)) now hd hsem,
      flow_dbError st (normSid (some s)) now ⟨1, 0, 0, 0, 0⟩ hg he, hnorm]
    rfl

/-- Oracles for a database whose cursor acquisition raises (the uncaught
    exception of `execute_query`, reaching `process_query`'s `except`). -/
def dbConnFailEnv : Env :=
  { dbRaisesEnv with dbCursor := fun _ => .error "connection refused" }

/-- Counterexample for C10 as stated: with a session active, a raised
    database exception writes a system message into conversation memory in a
    call that performed no formatting call, so memory is *not* written only
    after a successfully formatted response. -/
theorem C10_counterexample :
    (process_query dbConnFailEnv initialState "list damages" (some "s7") 0).2.2.format = 0 ∧
    (process_query dbConnFailEnv initialState "list damages" (some "s7") 0).2.1.memory =
      add_message emptyMemory "s7" "system" "Error: connection refused" 0 ∧
    add_message emptyMemory "s7" "system" "Error: connection refused" 0 ≠ emptyMemory := by
  refine ⟨rfl, rfl, by decide⟩

/-- Witness for C10 (amended): part (1) at a concrete cached state and part
    (3) at a concrete raised exception. -/
theorem C10_witness :
    process_query fullFlowEnv ⟨[("q0", "Cached answer")], emptyMemory, 0⟩ " Q0" none 0 =
      ("Cached answer", ⟨[("q0", "Cached answer")], emptyMemory, 0⟩, zeroCalls) ∧
    (process_query dbConnFailEnv initialState "list damages" (some "s9") 0).2.1.memory =
      add_message initialState.memory "s9" "system"
        ("Error: " ++ take100 (pyLower "connection refused")) 0 :=
  ⟨C10_frame_amended.1 fullFlowEnv ⟨[("q0", "Cached answer")], emptyMemory, 0⟩ " Q0"
      none 0 "Cached answer" (by decide) (by decide),
    C10_frame_amended.2.2 dbConnFailEnv initialState "list damages" "s9"
      "SELECT vin FROM inspections" "connection refused" 0
      rfl (by decide) rfl rfl rfl (by decide)⟩

/-! ## Claim C6 — the error counter and the empty-result fallback -/

theorem flow_empty {env : Env} {q raw : String} {sem : Option (List Row)}
    (st : ChatState) (sid : Option String) (now : Int) (c0 : Calls)
    (hg : env.genSqlRaw q sem = some raw)
    (he : execute_query (env.dbCursor (clean_sql raw)) = .ok none ∨
      execute_query (env.dbCursor (clean_sql raw)) = .ok (some [])) :
    execute_query_flow env st q sem sid now c0 =
      .ok ((handle_empty_results st q sid now).1, (handle_empty_results st q sid now).2,
        { c0 with genSql := c0.genSql + 1, db := c0.db + 1 }) := by
  rcases he with he | he <;> simp [execute_query_flow, hg, he]

/-- C6 (amended): the chatbot keeps a single chatbot-global counter of
    consecutive *exception-raising* calls, not a per-session counter of
    empty-result misses: (1) an empty-result query is answered with the
    generic trouble message exactly when the counter already exceeds 2,
    otherwise with a tailored `"No matching records found. ..."` suggestion,
    and in either case the counter is reset to 0; (2) a query whose database
    call raises increments the counter by one.  The session id plays no role
    in the counter. -/
theorem C6_error_counter_amended :
    (∀ (env : Env) (st : ChatState) (q : String) (sid0 : Option String) (now : Int)
        (raw : String),
      get_cached_response st.query_cache q = none →
      isDestructive q = false →
      (env.route q).use_semantic = false →
      env.genSqlRaw q none = some raw →
      (execute_query (env.dbCursor (clean_sql raw)) = .ok none ∨
        execute_query (env.dbCursor (clean_sql raw)) = .ok (some [])) →
      ((st.error_count > 2 → (process_query env st q sid0 now).1 = troubleMsg) ∧
        (st.error_count ≤ 2 → ∃ sugg, (process_query env st q sid0 now).1 =
          "No matching records found. " ++ sugg) ∧
        (process_query env st q sid0 now).2.1.error_count = 0)) ∧
    (∀ (env : Env) (st : ChatState) (q : String) (sid0 : Option String) (now : Int)
        (raw m : String),
      get_cached_response st.query_cache q = none →
      isDestructive q = false →
      (env.route q).use_semantic = false →
      env.genSqlRaw q none = some raw →
      env.dbCursor (clean_sql raw) = .error m →
      (process_query env st q sid0 now).2.1.error_count = st.error_count + 1) := by
  constructor
  · intro env st q sid0 now raw hc hd hsem hg he
    rw [process_query_of_miss env sid0 now hc,
      process_body_nosem st (normSid sid0) now hd hsem,
      flow_empty st (normSid sid0) now ⟨1, 0, 0, 0, 0⟩ hg he]
    dsimp only
    refine ⟨?_, ?_, rfl⟩
    · intro hgt
      unfold handle_empty_results
      rw [if_pos hgt]
    · intro hle
      unfold handle_empty_results
      rw [if_neg (by omega)]
      exact ⟨_, rfl⟩
  · intro env st q sid0 now raw m hc hd hsem hg he
    rw [process_query_of_miss env sid0 now hc,
      process_body_nosem st (normSid sid0) now hd hsem,
      flow_dbError st (normSid sid0) now ⟨1, 0, 0, 0, 0⟩ hg he]
    rfl

/-- Counterexample for C6 as stated: four consecutive empty-result queries
    in the same session — the fourth still receives a tailored suggestion,
    not the generic trouble message, because empty results never increment
    the counter (each non-raising call resets it to 0). -/
theorem C6_counterexample :
    (process_query dbZeroRowsEnv
      (process_query dbZeroRowsEnv
        (process_query dbZeroRowsEnv
          (process_query dbZeroRowsEnv initialState "qa" (some "s") 0).2.1
          "qb" (some "s") 0).2.1
        "qc" (some "s") 0).2.1
      "qd" (some "s") 0).1 =
      "No matching records found. Try being more specific with your criteria." ∧
    (process_query dbZeroRowsEnv
      (process_query dbZeroRowsEnv
        (process_query dbZeroRowsEnv
          (process_query dbZeroRowsEnv initialState "qa" (some "s") 0).2.1
          "qb" (some "s") 0).2.1
        "qc" (some "s") 0).2.1
      "qd" (some "s") 0).1 ≠ troubleMsg := by
  refine ⟨rfl, by decide⟩

/-- Witness for C6 (amended): with the counter at 3 an empty result gets the
    generic message; a raising call increments the counter from 0 to 1. -/
theorem C6_witness :
    (process_query dbZeroRowsEnv ⟨[], emptyMemory, 3⟩ "qe" none 0).1 = troubleMsg ∧
    (process_query dbConnFailEnv initialState "qf" none 0).2.1.error_count =
      initialState.error_count + 1 :=
  ⟨(C6_error_counter_amended.1 dbZeroRowsEnv ⟨[], emptyMemory, 3⟩ "qe" none 0
      "SELECT vin FROM inspections" rfl (by decide) rfl rfl (Or.inr rfl)).1 (by decide),
    C6_error_counter_amended.2 dbConnFailEnv initialState "qf" none 0
      "SELECT vin FROM inspections" "connection refused" rfl (by decide) rfl rfl rfl⟩

/-! ## Claim C9 — the enrichment summary -/

theorem pyMax_foldl_le (step : String × Nat → String × Nat → String × Nat)
    (hstep : step = fun b kv => if kv.2 > b.2 then kv else b)
    (xs : List (String × Nat)) :
    ∀ b : String × Nat, b.2 ≤ (xs.foldl step b).2 ∧
      ∀ kv ∈ xs, kv.2 ≤ (xs.foldl step b).2 := by
  induction xs with
  | nil => intro b; exact ⟨le_refl _, by intro kv h; cases h⟩
  | cons y ys ih =>
    intro b
    simp only [List.foldl_cons]
    have hb : b.2 ≤ (step b y).2 := by
      rw [hstep]; dsimp only; split <;> omega
    have hy : y.2 ≤ (step b y).2 := by
      rw [hstep]; dsimp only; split <;> omega
    refine ⟨le_trans hb (ih (step b y)).1, ?_⟩
    intro kv hkv
    rcases List.mem_cons.mp hkv with h1 | hkv'
    · rw [h1]; exact le_trans hy (ih (step b y)).1
    · exact (ih (step b y)).2 kv hkv'

theorem pyMax_le (dflt : String × Nat) (l : List (String × Nat)) :
    ∀ kv ∈ l, kv.2 ≤ (pyMax dflt l).2 := by
  cases l with
  | nil => intro kv h; cases h
  | cons x xs =>
    intro kv hkv
    simp only [pyMax]
    rcases List.mem_cons.mp hkv with h1 | hkv'
    · rw [h1]; exact (pyMax_foldl_le _ rfl xs x).1
    · exact (pyMax_foldl_le _ rfl xs x).2 kv hkv'

theorem pyMax_foldl_mem (step : String × Nat → String × Nat → String × Nat)
    (hstep : step = fun b kv => if kv.2 > b.2 then kv else b)
    (xs : List (String × Nat)) :
    ∀ b : String × Nat, xs.foldl step b = b ∨ xs.foldl step b ∈ xs := by
  induction xs with
  | nil => intro b; exact Or.inl rfl
  | cons y ys ih =>
    intro b
    simp only [List.foldl_cons]
    have hsy : step b y = y ∨ step b y = b := by
      rw [hstep]; dsimp only; split
      · exact Or.inl rfl
      · exact Or.inr rfl
    rcases ih (step b y) with h | h
    · rcases hsy with h2 | h2
      · right; rw [h, h2]; exact List.mem_cons_self _ _
      · left; rw [h, h2]
    · right; exact List.mem_cons_of_mem _ h

theorem pyMax_mem (dflt : String × Nat) {l : List (String × Nat)} (h : l ≠ []) :
    pyMax dflt l ∈ l := by
  cases l with
  | nil => exact absurd rfl h
  | cons x xs =>
    simp only [pyMax]
    rcases pyMax_foldl_mem _ rfl xs x with h1 | h1
    · rw [h1]; exact List.mem_cons_self _ _
    · exact List.mem_cons_of_mem _ h1

theorem insortStr_perm (s : String) (l : List String) :
    List.Perm (insortStr s l) (s :: l) := by
  induction l with
  | nil => exact List.Perm.refl _
  | cons t ts ih =>
    unfold insortStr
    split
    · exact (ih.cons t).trans (List.Perm.swap s t ts)
    · exact List.Perm.refl _

theorem sortStr_perm (l : List String) : List.Perm (sortStr l) l := by
  induction l with
  | nil => exact List.Perm.refl _
  | cons x xs ih =>
    exact (insortStr_perm x (sortStr xs)).trans (ih.cons x)

theorem collectStep_nodup {key : String} {acc : List String} {rec : Row}
    (h : acc.Nodup) : (collectStep key acc rec).Nodup := by
  unfold collectStep
  cases hrg : rowGet rec key with
  | none => exact h
  | some s =>
    show (if s = "" then acc else if s ∈ acc then acc else acc ++ [s]).Nodup
    by_cases hs : s = ""
    · rw [if_pos hs]; exact h
    · rw [if_neg hs]
      by_cases hmem : s ∈ acc
      · rw [if_pos hmem]; exact h
      · rw [if_neg hmem]
        simp [List.nodup_append, h, hmem]

theorem collectStep_mem {key : String} {acc : List String} {rec : Row} {y : String}
    (h : y ∈ collectStep key acc rec) : y ∈ acc ∨ rowGet rec key = some y := by
  unfold collectStep at h
  cases hrg : rowGet rec key with
  | none => rw [hrg] at h; exact Or.inl h
  | some s =>
    simp only [hrg] at h
    by_cases hs : s = ""
    · rw [if_pos hs] at h; exact Or.inl h
    · rw [if_neg hs] at h
      by_cases hmem : s ∈ acc
      · rw [if_pos hmem] at h; exact Or.inl h
      · rw [if_neg hmem] at h
        rcases List.mem_append.mp h with h2 | h2
        · exact Or.inl h2
        · right
          have hys : y = s := by simpa using h2
          rw [hys]

theorem foldl_collect_nodup (key : String) (results : List Row) :
    ∀ acc : List String, acc.Nodup → (results.foldl (collectStep key) acc).Nodup := by
  induction results with
  | nil => intro acc h; exact h
  | cons rec recs ih =>
    intro acc h
    rw [List.foldl_cons]
    exact ih _ (collectStep_nodup h)

theorem collectDistinct_nodup (results : List Row) (key : String) :
    (collectDistinct results key).Nodup :=
  foldl_collect_nodup key results [] List.nodup_nil

theorem foldl_collect_mem (key : String) (results : List Row) :
    ∀ (acc : List String) (x : String), x ∈ results.foldl (collectStep key) acc →
      x ∈ acc ∨ ∃ rec ∈ results, rowGet rec key = some x := by
  induction results with
  | nil => intro acc x h; exact Or.inl h
  | cons rec recs ih =>
    intro acc x h
    rw [List.foldl_cons] at h
    rcases ih _ x h with h1 | ⟨rec1, hm, hg⟩
    · rcases collectStep_mem h1 with h2 | h2
      · exact Or.inl h2
      · exact Or.inr ⟨rec, List.mem_cons_self _ _, h2⟩
    · exact Or.inr ⟨rec1, List.mem_cons_of_mem _ hm, hg⟩

theorem collectDistinct_mem {results : List Row} {key x : String}
    (h : x ∈ collectDistinct results key) :
    ∃ rec ∈ results, rowGet rec key = some x := by
  rcases foldl_collect_mem key results [] x h with h1 | h1
  · cases h1
  · exact h1

/-- Counterexample for C9 as stated: the damage category is the segment
    before the first `-` *stripped* then lowercased, not merely lowercased —
    on `"scratch -door"` the code produces category `"scratch"` with a
    trailing-space-free key, while the claim's reading produces
    `"scratch "`. -/
theorem C9_counterexample :
    enrich_results [[("damage_descriptions", "scratch -door")]] =
      some ⟨[], ("scratch", 1), ("unknown", 0), 1⟩ ∧
    enrichClaimed [[("damage_descriptions", "scratch -door")]] =
      some ⟨[], ("scratch ", 1), ("unknown", 0), 1⟩ ∧
    enrich_results [[("damage_descriptions", "scratch -door")]] ≠
      enrichClaimed [[("damage_descriptions", "scratch -door")]] := by
  refine ⟨rfl, rfl, by decide⟩

/-- C9 (amended): for an empty result set the enrichment is empty; for a
    non-empty one it contains the row count, at most 3 distinct source-file
    identifiers each drawn from the rows, the most frequent damage category
    (the segment of `damage_descriptions` before the first `-`,
    whitespace-stripped and lowercased) with its count, and the most
    frequent inspector (`inspector_name` lowercased) with its count —
    "most frequent" meaning an entry of the counter dict of maximal count,
    with the fixed defaults `("none", 0)` / `("unknown", 0)` when no row
    contributed. -/
theorem C9_enrichment_amended :
    enrich_results [] = none ∧
    ∀ results : List Row, results ≠ [] →
      ∃ e, enrich_results results = some e ∧
        e.record_count = results.length ∧
        e.source_files.length ≤ 3 ∧
        e.source_files.Nodup ∧
        (∀ f ∈ e.source_files, ∃ rec ∈ results, rowGet rec "source_file" = some f) ∧
        (∀ kv ∈ damageCounts damageKey results, kv.2 ≤ e.top_damage.2) ∧
        (damageCounts damageKey results ≠ [] →
          e.top_damage ∈ damageCounts damageKey results) ∧
        (damageCounts damageKey results = [] → e.top_damage = ("none", 0)) ∧
        (∀ kv ∈ inspectorCounts results, kv.2 ≤ e.top_inspector.2) ∧
        (inspectorCounts results ≠ [] → e.top_inspector ∈ inspectorCounts results) ∧
        (inspectorCounts results = [] → e.top_inspector = ("unknown", 0)) := by
  refine ⟨rfl, ?_⟩
  intro results hne
  cases results with
  | nil => exact absurd rfl hne
  | cons r rs =>
    refine ⟨_, rfl, rfl, ?_, ?_, ?_, ?_, ?_, ?_, ?_, ?_, ?_⟩
    · show ((sortStr (collectDistinct (r :: rs) "source_file")).take 3).length ≤ 3
      rw [List.length_take]
      omega
    · exact List.Nodup.sublist (List.take_sublist _ _)
        ((sortStr_perm _).nodup_iff.mpr (collectDistinct_nodup _ _))
    · intro f hf
      have h1 : f ∈ sortStr (collectDistinct (r :: rs) "source_file") :=
        List.mem_of_mem_take hf
      have h2 : f ∈ collectDistinct (r :: rs) "source_file" :=
        (sortStr_perm _).mem_iff.mp h1
      exact collectDistinct_mem h2
    · exact pyMax_le _ _
    · intro h; exact pyMax_mem _ h
    · intro h; rw [h]; rfl
    · exact pyMax_le _ _
    · intro h; exact pyMax_mem _ h
    · intro h; rw [h]; rfl

/-- Witness for C9 (amended) at a two-row result set. -/
theorem C9_witness :
    ∃ e, enrich_results
        [[("damage_descriptions", "Dent - hood"), ("inspector_name", "Ann"),
          ("source_file", "a.pdf")],
         [("damage_descriptions", "dent - door"), ("inspector_name", "ANN"),
          ("source_file", "b.pdf")]] = some e ∧
      e.record_count = 2 ∧
      e.source_files.length ≤ 3 ∧
      e.source_files.Nodup ∧
      (∀ f ∈ e.source_files, ∃ rec ∈
        [[("damage_descriptions", "Dent - hood"), ("inspector_name", "Ann"),
          ("source_file", "a.pdf")],
         [("damage_descriptions", "dent - door"), ("inspector_name", "ANN"),
          ("source_file", "b.pdf")]], rowGet rec "source_file" = some f) ∧
      (∀ kv ∈ damageCounts damageKey
        [[("damage_descriptions", "Dent - hood"), ("inspector_name", "Ann"),
          ("source_file", "a.pdf")],
         [("damage_descriptions", "dent - door"), ("inspector_name", "ANN"),
          ("source_file", "b.pdf")]], kv.2 ≤ e.top_damage.2) ∧
      (damageCounts damageKey
        [[("damage_descriptions", "Dent - hood"), ("inspector_name", "Ann"),
          ("source_file", "a.pdf")],
         [("damage_descriptions", "dent - door"), ("inspector_name", "ANN"),
          ("source_file", "b.pdf")]] ≠ [] →
        e.top_damage ∈ damageCounts damageKey
        [[("damage_descriptions", "Dent - hood"), ("inspector_name", "Ann"),
          ("source_file", "a.pdf")],
         [("damage_descriptions", "dent - door"), ("inspector_name", "ANN"),
          ("source_file", "b.pdf")]]) ∧
      (damageCounts damageKey
        [[("damage_descriptions", "Dent - hood"), ("inspector_name", "Ann"),
          ("source_file", "a.pdf")],
         [("damage_descriptions", "dent - door"), ("inspector_name", "ANN"),
          ("source_file", "b.pdf")]] = [] → e.top_damage = ("none", 0)) ∧
      (∀ kv ∈ inspectorCounts
        [[("damage_descriptions", "Dent - hood"), ("inspector_name", "Ann"),
          ("source_file", "a.pdf")],
         [("damage_descriptions", "dent - door"), ("inspector_name", "ANN"),
          ("source_file", "b.pdf")]], kv.2 ≤ e.top_inspector.2) ∧
      (inspectorCounts
        [[("damage_descriptions", "Dent - hood"), ("inspector_name", "Ann"),
          ("source_file", "a.pdf")],
         [("damage_descriptions", "dent - door"), ("inspector_name", "ANN"),
          ("source_file", "b.pdf")]] ≠ [] →
        e.top_inspector ∈ inspectorCounts
        [[("damage_descriptions", "Dent - hood"), ("inspector_name", "Ann"),
          ("source_file", "a.pdf")],
         [("damage_descriptions", "dent - door"), ("inspector_name", "ANN"),
          ("source_file", "b.pdf")]]) ∧
      (inspectorCounts
        [[("damage_descriptions", "Dent - hood"), ("inspector_name", "Ann"),
          ("source_file", "a.pdf")],
         [("damage_descriptions", "dent - door"), ("inspector_name", "ANN"),
          ("source_file", "b.pdf")]] = [] → e.top_inspector = ("unknown", 0)) :=
  C9_enrichment_amended.2
    [[("damage_descriptions", "Dent - hood"), ("inspector_name", "Ann"),
      ("source_file", "a.pdf")],
     [("damage_descriptions", "dent - door"), ("inspector_name", "ANN"),
      ("source_file", "b.pdf")]] (by decide)

/-! ## Claim C3 — `_clean_sql` post-processing

Supporting theory for the `re.sub` scans: where no match starts, the scan
copies; at a planted exact-match predicate, it substitutes. -/

/-- No match of the column pattern starts at any of the first `n` positions. -/
def noMatchBefore (col : List Char) : List Char → Nat → Bool
  | _, 0 => true
  | [], _ + 1 => true
  | c :: rest, n + 1 => (matchExact col (c :: rest)).isNone && noMatchBefore col rest n

/-- No match of the column pattern starts anywhere. -/
def noMatchAll (col l : List Char) : Bool := noMatchBefore col l l.length

theorem matchExact_nil (col : List Char) : matchExact col [] = none := by
  cases col <;> rfl

theorem ilikeSub_id {col l : List Char} (h : noMatchAll col l = true) :
    ilikeSub col l = l := by
  induction l with
  | nil => rfl
  | cons c rest ih =>
    unfold noMatchAll at h
    simp only [List.length_cons, noMatchBefore, Bool.and_eq_true] at h
    rw [ilikeSub_cons_none (Option.isNone_iff_eq_none.mp h.1), ih h.2]

theorem ilikeSub_split {col : List Char} : ∀ {p q : List Char},
    noMatchBefore col (p ++ q) p.length = true →
    ilikeSub col (p ++ q) = p ++ ilikeSub col q := by
  intro p
  induction p with
  | nil => intro q h; simp
  | cons c p' ih =>
    intro q h
    rw [List.cons_append, List.length_cons] at h
    have h' : (matchExact col (c :: (p' ++ q))).isNone = true ∧
        noMatchBefore col (p' ++ q) p'.length = true := by
      rw [noMatchBefore, Bool.and_eq_true] at h
      exact h
    rw [List.cons_append, ilikeSub_cons_none (Option.isNone_iff_eq_none.mp h'.1), ih h'.2,
      List.cons_append]

theorem stripPrefixCI_self : ∀ (pat l : List Char), stripPrefixCI pat (pat ++ l) = some l := by
  intro pat
  induction pat with
  | nil => intro l; rfl
  | cons a as ih => intro l; simp [stripPrefixCI, ih]

theorem takeWhile_all {p : Char → Bool} : ∀ {l : List Char}, l.all p = true →
    l.takeWhile p = l := by
  intro l
  induction l with
  | nil => intro h; rfl
  | cons c rest ih =>
    intro h
    simp only [List.all_cons, Bool.and_eq_true] at h
    rw [List.takeWhile_cons_of_pos h.1, ih h.2]

/-- The separator text `` = '`` of a planted exact-match predicate. -/
def eqSep : List Char := [' ', '=', ' ', quoteC]

theorem matchExact_planted {col v r : List Char} (hv1 : v ≠ [])
    (hv2 : v.all (fun c => c != quoteC) = true) :
    matchExact col (col ++ (eqSep ++ (v ++ quoteC :: r))) = some (v, r) := by
  have h3 : (v ++ quoteC :: r).takeWhile (fun x => x != quoteC) = v := by
    rw [List.takeWhile_append_of_pos (by
      intro a ha
      exact (List.all_eq_true.mp hv2) a ha)]
    rw [List.takeWhile_cons_of_neg (by simp)]
    simp
  have h4 : (v ++ quoteC :: r).drop v.length = quoteC :: r :=
    List.drop_left v (quoteC :: r)
  have hd1 : List.dropWhile Char.isWhitespace
      (' ' :: '=' :: ' ' :: quoteC :: (v ++ quoteC :: r)) =
      '=' :: ' ' :: quoteC :: (v ++ quoteC :: r) := by
    rw [List.dropWhile_cons_of_pos (by decide)]
    rw [List.dropWhile_cons_of_neg (by decide)]
  have hd2 : List.dropWhile Char.isWhitespace (' ' :: quoteC :: (v ++ quoteC :: r)) =
      quoteC :: (v ++ quoteC :: r) := by
    rw [List.dropWhile_cons_of_pos (by decide)]
    rw [List.dropWhile_cons_of_neg (by decide)]
  simp only [matchExact, eqSep, stripPrefixCI_self, List.cons_append, List.nil_append,
    hd1, hd2, h3, h4]
  simp [List.isEmpty_iff, hv1]

theorem text_columns_nonempty : ∀ col ∈ TEXT_COLUMNS, col.data ≠ [] := by decide

theorem ilikeSub_planted {col v r : List Char} (hcol : col ≠ [])
    (hv1 : v ≠ []) (hv2 : v.all (fun c => c != quoteC) = true)
    (hinr : noMatchAll col r = true) :
    ilikeSub col (col ++ (eqSep ++ (v ++ quoteC :: r))) =
      col ++ ilikeMid ++ v ++ ilikeEnd ++ r := by
  obtain ⟨c0, cs, hc⟩ : ∃ c0 cs, col = c0 :: cs := by
    cases col with
    | nil => exact absurd rfl hcol
    | cons a b => exact ⟨a, b, rfl⟩
  subst hc
  have hm := @matchExact_planted (c0 :: cs) v r hv1 hv2
  rw [List.cons_append] at hm
  rw [List.cons_append, ilikeSub_cons_some hm, ilikeSub_id hinr]

theorem ilikeSub_foldl_id {cols : List String} {l : List Char}
    (h : ∀ c2 ∈ cols, noMatchAll c2.data l = true) :
    cols.foldl (fun s c => ilikeSub c.data s) l = l := by
  induction cols with
  | nil => rfl
  | cons c cs ih =>
    rw [List.foldl_cons, ilikeSub_id (h c (List.mem_cons_self _ _))]
    exact ih (fun c2 hc2 => h c2 (List.mem_cons_of_mem _ hc2))

theorem text_columns_nodup : TEXT_COLUMNS.Nodup := by decide

/-- The rewritten form of a planted predicate. -/
def plantedOut (col : String) (p v r : List Char) : List Char :=
  p ++ (col.data ++ (ilikeMid ++ (v ++ (ilikeEnd ++ r))))

/-- The raw form of a planted predicate. -/
def plantedIn (col : String) (p v r : List Char) : List Char :=
  p ++ (col.data ++ (eqSep ++ (v ++ quoteC :: r)))

theorem ilikeSubAll_planted {col : String} {p v r : List Char}
    (hcol : col ∈ TEXT_COLUMNS)
    (hv1 : v ≠ []) (hv2 : v.all (fun c => c != quoteC) = true)
    (hbefore : noMatchBefore col.data (plantedIn col p v r) p.length = true)
    (hinr : noMatchAll col.data r = true)
    (hothers : ∀ c2 ∈ TEXT_COLUMNS, c2 ≠ col →
      noMatchAll c2.data (plantedIn col p v r) = true ∧
      noMatchAll c2.data (plantedOut col p v r) = true) :
    ilikeSubAll (plantedIn col p v r) = plantedOut col p v r := by
  obtain ⟨s, t, hdecomp⟩ := List.append_of_mem hcol
  have hnods : col ∉ s ∧ col ∉ t := by
    have hnodup := text_columns_nodup
    rw [hdecomp] at hnodup
    rw [List.nodup_append] at hnodup
    obtain ⟨h1, h2, h3⟩ := hnodup
    rw [List.nodup_cons] at h2
    exact ⟨fun hs => h3 hs (List.mem_cons_self _ _), h2.1⟩
  have hmem_s : ∀ c2 ∈ s, c2 ∈ TEXT_COLUMNS := by
    intro c2 hc2
    rw [hdecomp]
    exact List.mem_append_left _ hc2
  have hmem_t : ∀ c2 ∈ t, c2 ∈ TEXT_COLUMNS := by
    intro c2 hc2
    rw [hdecomp]
    exact List.mem_append_right _ (List.mem_cons_of_mem _ hc2)
  have hmid : ilikeSub col.data (plantedIn col p v r) = plantedOut col p v r := by
    unfold plantedIn plantedOut
    rw [ilikeSub_split hbefore,
      ilikeSub_planted (text_columns_nonempty col hcol) hv1 hv2 hinr]
    simp
  unfold ilikeSubAll
  rw [hdecomp, List.foldl_append, List.foldl_cons]
  rw [ilikeSub_foldl_id (fun c2 hc2 =>
    (hothers c2 (hmem_s c2 hc2) (fun he => hnods.1 (he ▸ hc2))).1)]
  rw [hmid]
  exact ilikeSub_foldl_id (fun c2 hc2 =>
    (hothers c2 (hmem_t c2 hc2) (fun he => hnods.2 (he ▸ hc2))).2)


/-! Character-preservation facts for the cleanup passes, and embedding of
substring occurrences into larger strings. -/

theorem all_of_subset {p : Char → Bool} {l l2 : List Char}
    (hsub : ∀ x ∈ l2, x ∈ l) (h : l.all p = true) : l2.all p = true := by
  rw [List.all_eq_true] at h ⊢
  exact fun x hx => h x (hsub x hx)

theorem stripFencesAux_mem : ∀ (fuel : Nat) (l : List Char) (x : Char),
    x ∈ stripFencesAux fuel l → x ∈ l := by
  intro fuel
  induction fuel with
  | zero => intro l _ h; exact h
  | succ f ih =>
    intro l x h
    cases l with
    | nil => exact h
    | cons c rest =>
      simp only [stripFencesAux] at h
      split at h
      · exact List.mem_of_mem_drop (ih _ x h)
      · split at h
        · exact List.mem_of_mem_drop (ih _ x h)
        · rcases List.mem_cons.mp h with h1 | h2
          · rw [h1]; exact List.mem_cons_self _ _
          · exact List.mem_cons_of_mem _ (ih _ x h2)

theorem stripFences_all {p : Char → Bool} {l : List Char} (h : l.all p = true) :
    (stripFences l).all p = true :=
  all_of_subset (fun x hx => stripFencesAux_mem _ _ x hx) h

theorem stripL_all {p : Char → Bool} {l : List Char} (h : l.all p = true) :
    (stripL l).all p = true :=
  all_of_subset (fun _ hx => (stripL_infix_self l).sublist.subset hx) h

theorem ilikeSubAux_all {p : Char → Bool} {col : List Char} (hcol : col.all p = true)
    (hmid : ilikeMid.all p = true) (hend : ilikeEnd.all p = true) :
    ∀ (fuel : Nat) (l : List Char), l.all p = true →
      (ilikeSubAux col fuel l).all p = true := by
  intro fuel
  induction fuel with
  | zero => intro l h; exact h
  | succ f ih =>
    intro l h
    cases l with
    | nil => exact h
    | cons c rest =>
      simp only [ilikeSubAux]
      cases hm : matchExact col (c :: rest) with
      | none =>
        dsimp only
        simp only [List.all_cons, Bool.and_eq_true] at h ⊢
        exact ⟨h.1, ih rest h.2⟩
      | some pr =>
        obtain ⟨v, after⟩ := pr
        dsimp only
        obtain ⟨⟨pre, hdecomp⟩, -, -⟩ := matchExact_decomp hm
        have hv : v.all p = true :=
          all_of_subset (fun x hx => by rw [hdecomp]; simp [hx]) h
        have hafter : after.all p = true :=
          all_of_subset (fun x hx => by rw [hdecomp]; simp [hx]) h
        simp only [List.all_append, Bool.and_eq_true]
        exact ⟨⟨⟨⟨hcol, hmid⟩, hv⟩, hend⟩, ih after hafter⟩

theorem ilikeSubAll_all {p : Char → Bool}
    (hcols : ∀ c ∈ TEXT_COLUMNS, c.data.all p = true)
    (hmid : ilikeMid.all p = true) (hend : ilikeEnd.all p = true)
    {l : List Char} (h : l.all p = true) : (ilikeSubAll l).all p = true := by
  unfold ilikeSubAll
  have haux : ∀ (cols : List String), (∀ c ∈ cols, c.data.all p = true) →
      ∀ l2 : List Char, l2.all p = true →
        (cols.foldl (fun s c => ilikeSub c.data s) l2).all p = true := by
    intro cols
    induction cols with
    | nil => intro _ l2 h2; exact h2
    | cons c cs ih =>
      intro hc l2 h2
      rw [List.foldl_cons]
      exact ih (fun c2 hc2 => hc c2 (List.mem_cons_of_mem _ hc2)) _
        (ilikeSubAux_all (hc c (List.mem_cons_self _ _)) hmid hend _ _ h2)
  exact haux TEXT_COLUMNS hcols l h

theorem infixL_append_left {sub l y : List Char} (h : isInfixL sub l = true) :
    isInfixL sub (l ++ y) = true := by
  rw [isInfixL_iff] at h ⊢
  exact h.trans (List.prefix_append l y).isInfix

theorem infixL_append_right {sub l x : List Char} (h : isInfixL sub l = true) :
    isInfixL sub (x ++ l) = true := by
  rw [isInfixL_iff] at h ⊢
  exact h.trans (List.suffix_append x l).isInfix

theorem upperL_append (a b : List Char) : upperL (a ++ b) = upperL a ++ upperL b := by
  unfold upperL
  exact List.map_append _ _ _

theorem text_columns_no_semicolon :
    ∀ c ∈ TEXT_COLUMNS, c.data.all (fun x => x != ';') = true := by decide

/-- Counterexample for C3 as stated: the multi-statement input
    `"SELECT a FROM t; SELECT b FROM t"` has no row-limit clause, yet the
    returned first statement also has none — the ` LIMIT 1000` appended to
    the *whole* text lands in the part that the `split(';')[0]` truncation
    throws away, so part (2) of the claim fails on this input. -/
theorem C3_counterexample :
    isInfixL "LIMIT".data (upperL "SELECT a FROM t; SELECT b FROM t".data) = false ∧
    clean_sql "SELECT a FROM t; SELECT b FROM t" = "SELECT a FROM t;" ∧
    isInfixL "LIMIT".data (upperL "SELECT a FROM t;".data) = false := by
  refine ⟨by decide, rfl, by decide⟩

theorem stripFences_cons_ne {c : Char} {rest : List Char} (h : (c == backqC) = false) :
    stripFencesAux (rest.length + 1) (c :: rest) = c :: stripFencesAux rest.length rest := by
  have hbc : (backqC == c) = false := by
    cases hcb : backqC == c
    · rfl
    · have hc2 : (c == backqC) = true := by
        rw [← eq_of_beq hcb]
        exact beq_self_eq_true _
      rw [hc2] at h
      cases h
  simp [stripFencesAux, fenceSql, fencePlain, isPrefixL, hbc]

theorem stripFences_id {l : List Char} (h : l.all (fun c => c != backqC) = true) :
    stripFences l = l := by
  induction l with
  | nil => rfl
  | cons c rest ih =>
    simp only [List.all_cons, Bool.and_eq_true] at h
    have hc : (c == backqC) = false := by
      have h1 := h.1
      rw [bne] at h1
      cases hcc : c == backqC
      · rfl
      · rw [hcc] at h1; cases h1
    show stripFencesAux (rest.length + 1) (c :: rest) = c :: rest
    rw [stripFences_cons_ne hc]
    exact congrArg (c :: ·) (ih h.2)

theorem preSplit_planted {col : String} {p v r : List Char}
    (hcol : col ∈ TEXT_COLUMNS)
    (hv1 : v ≠ []) (hv2 : v.all (fun c => c != quoteC) = true)
    (hbefore : noMatchBefore col.data (plantedIn col p v r) p.length = true)
    (hinr : noMatchAll col.data r = true)
    (hothers : ∀ c2 ∈ TEXT_COLUMNS, c2 ≠ col →
      noMatchAll c2.data (plantedIn col p v r) = true ∧
      noMatchAll c2.data (plantedOut col p v r) = true)
    (hbq : (plantedIn col p v r).all (fun c => c != backqC) = true)
    (hstrip : stripL (plantedIn col p v r) = plantedIn col p v r)
    (hsel : isInfixL "SELECT".data (upperL (plantedOut col p v r)) = true)
    (hlim : isInfixL "LIMIT".data (upperL (plantedOut col p v r)) = false) :
    preSplit (plantedIn col p v r) = plantedOut col p v r ++ " LIMIT 1000".data := by
  unfold preSplit
  simp only [stripFences_id hbq, hstrip,
    ilikeSubAll_planted hcol hv1 hv2 hbefore hinr hothers]
  rw [if_pos hsel, if_neg (by simp [hlim])]

/-- C3 (amended): `_clean_sql` (1) rewrites a planted exact-match predicate
    `col = 'value'` on a known free-text column into `col ILIKE '%value%'`
    (stated for an input whose only pattern occurrence is the planted one);
    (2) appends ` LIMIT 1000` to the *whole* text when it lacks the
    substring `LIMIT` — the append precedes the truncation, so only a
    `;`-free (single-statement) input is guaranteed a `LIMIT` in the
    result; (3) always truncates to the text before the first `;`,
    terminated with `;`. -/
theorem C3_clean_sql_amended :
    (∀ raw : List Char,
      cleanSqlL raw = (cleanSqlL raw).takeWhile (fun c => c != ';') ++ [';']) ∧
    (∀ raw : List Char, raw.all (fun c => c != ';') = true →
      isInfixL "LIMIT".data (upperL (cleanSqlL raw)) = true) ∧
    (∀ (col : String) (p v r : List Char),
      col ∈ TEXT_COLUMNS →
      v ≠ [] → v.all (fun c => c != quoteC) = true →
      noMatchBefore col.data (plantedIn col p v r) p.length = true →
      noMatchAll col.data r = true →
      (∀ c2 ∈ TEXT_COLUMNS, c2 ≠ col →
        noMatchAll c2.data (plantedIn col p v r) = true ∧
        noMatchAll c2.data (plantedOut col p v r) = true) →
      (plantedIn col p v r).all (fun c => c != backqC) = true →
      stripL (plantedIn col p v r) = plantedIn col p v r →
      p.all (fun c => c != ';') = true →
      v.all (fun c => c != ';') = true →
      r.all (fun c => c != ';') = true →
      isInfixL "SELECT".data (upperL (plantedOut col p v r)) = true →
      isInfixL "LIMIT".data (upperL (plantedOut col p v r)) = false →
      cleanSqlL (plantedIn col p v r) = plantedOut col p v r ++ " LIMIT 1000;".data) := by
  have firstStmt_idem : ∀ l : List Char,
      (l.takeWhile (fun c => c != ';') ++ [';']).takeWhile (fun c => c != ';') ++ [';'] =
        l.takeWhile (fun c => c != ';') ++ [';'] := by
    intro l
    have hstep : ((l.takeWhile (fun c => c != ';')) ++ [';']).takeWhile (fun c => c != ';') =
        l.takeWhile (fun c => c != ';') ++ ([';'].takeWhile (fun c => c != ';')) :=
      List.takeWhile_append_of_pos
        (fun a ha => List.mem_takeWhile_imp (p := fun c => c != ';') ha)
    rw [hstep, List.takeWhile_cons_of_neg (by decide)]
    simp
  refine ⟨?_, ?_, ?_⟩
  · intro raw
    unfold cleanSqlL
    exact (firstStmt_idem (preSplit raw)).symm
  · intro raw hsemi
    have key : ∀ s2 : List Char, s2.all (fun c => c != ';') = true →
        isInfixL "LIMIT".data (upperL
          ((if isInfixL "LIMIT".data (upperL s2) then s2
            else s2 ++ " LIMIT 1000".data).takeWhile (fun c => c != ';') ++ [';'])) =
          true := by
      intro s2 hall
      by_cases hl : isInfixL "LIMIT".data (upperL s2) = true
      · rw [if_pos hl, takeWhile_all hall, upperL_append]
        exact infixL_append_left hl
      · rw [if_neg hl]
        have hall2 : (s2 ++ " LIMIT 1000".data).all (fun c => c != ';') = true := by
          rw [List.all_append, hall, Bool.true_and]
          decide
        rw [takeWhile_all hall2, upperL_append, upperL_append]
        exact infixL_append_left (infixL_append_right (by decide))
    have h2 : (stripL (stripFences raw)).all (fun c => c != ';') = true :=
      stripL_all (stripFences_all hsemi)
    have h3 : (ilikeSubAll (stripL (stripFences raw))).all (fun c => c != ';') = true :=
      ilikeSubAll_all text_columns_no_semicolon (by decide) (by decide) h2
    unfold cleanSqlL preSplit
    dsimp only
    by_cases hsel2 :
        isInfixL "SELECT".data (upperL (ilikeSubAll (stripL (stripFences raw)))) = true
    · rw [if_pos hsel2]
      exact key _ h3
    · rw [if_neg hsel2]
      refine key _ ?_
      rw [List.all_append, h3, Bool.and_true]
      decide
  · intro col p v r hcol hv1 hv2 hbefore hinr hothers hbq hstrip hpsemi hvsemi hrsemi hsel hlim
    have hall : (plantedOut col p v r ++ " LIMIT 1000".data).all (fun c => c != ';') = true := by
      unfold plantedOut
      simp only [List.all_append, Bool.and_eq_true]
      exact ⟨⟨hpsemi, text_columns_no_semicolon col hcol, by decide, hvsemi, by decide,
        hrsemi⟩, by decide⟩
    unfold cleanSqlL
    rw [preSplit_planted hcol hv1 hv2 hbefore hinr hothers hbq hstrip hsel hlim]
    rw [takeWhile_all hall, List.append_assoc]
    congr 1

/-- Witness for C3 (amended): part (2) on a concrete single statement, part
    (1)+(2)+(3) combined on a concrete planted predicate on the free-text
    column `ramp`. -/
theorem C3_witness :
    isInfixL "LIMIT".data (upperL (cleanSqlL "SELECT vin FROM inspections".data)) = true ∧
    cleanSqlL (plantedIn "ramp" "SELECT * FROM inspections WHERE ".data "north".data []) =
      plantedOut "ramp" "SELECT * FROM inspections WHERE ".data "north".data [] ++
        " LIMIT 1000;".data :=
  ⟨C3_clean_sql_amended.2.1 "SELECT vin FROM inspections".data (by decide),
    C3_clean_sql_amended.2.2 "ramp" "SELECT * FROM inspections WHERE ".data
      "north".data [] (by decide) (by decide) (by decide) (by decide) (by decide)
      (by decide) (by decide) (by decide) (by decide) (by decide) (by decide)
      (by decide) (by decide)⟩

end Inspectra
